import Mathlib

/-!
Verification of the histogram aggregation engine of a perf-style profiler
(`util/hist.c`).  The C data structures and routines are shallowly embedded:

* `he_stat`, `hist_entry`, `hists` become Lean structures; the `u64`/`u16`
  counters become `Nat` (no addition in the modelled routines ever wraps for
  the inputs considered, and the only subtractions, in
  `hists__decay_entry`, subtract a quantity that is provably no larger than
  the minuend in the states the theorems speak about);
* the red-black trees (`entries_in[2]`, `entries_collapsed`, `entries`)
  become membership information: every live `hist_entry` is one element of
  `Hists.store`, its `rb_node_in` membership is the field `node_in`
  (an entry is linked in exactly one of the two insertion buffers or the
  collapsed tree, exactly as the single `rb_node_in` field of the C struct),
  and its `rb_node` membership in the output tree is the field `node_out`;
  tree iteration order is abstracted to the order of `store`, which is sound
  for the properties proved here (sums, membership, per-entry statistics);
* freeing an entry (`hist_entry__free`) removes it from `store`;
* the callchain machinery is omitted (`symbol_conf.use_callchain = false`
  throughout); no claim below mentions callchains.

Modelled from the spec: the comparator family (`hist_entry__cmp`,
`hist_entry__collapse`, `hist_entry__sort`) lives in `sort.c` and the
`perf_hpp` format list, which are not part of the sources at hand.  The spec
describes them as lexicographic folds over the configured columns forming a
total order, so each entry carries an opaque sort key `key` (for
`hist_entry__cmp`) and collapse key `ckey` (for `hist_entry__collapse`) and
the comparators compare those.  Likewise `thread__comm_len`,
`dso__name_len`, `symbol->namelen` and `hist_entry__transaction_len` are
kept as opaque length fields of the entry (the engine only ever reads the
resulting lengths).
-/

/-- Accumulated statistics of one histogram entry (`struct he_stat`). -/
structure HeStat where
  period : Nat
  period_sys : Nat
  period_us : Nat
  period_guest_sys : Nat
  period_guest_us : Nat
  nr_events : Nat
  weight : Nat
deriving DecidableEq, Repr

/-- The all-zero statistics (`memset(&he->stat, 0, sizeof(he->stat))`). -/
def zeroStat : HeStat := ⟨0, 0, 0, 0, 0, 0, 0⟩

/-- `PERF_RECORD_MISC_KERNEL` -/
def PERF_RECORD_MISC_KERNEL : Nat := 1
/-- `PERF_RECORD_MISC_USER` -/
def PERF_RECORD_MISC_USER : Nat := 2
/-- `PERF_RECORD_MISC_GUEST_KERNEL` -/
def PERF_RECORD_MISC_GUEST_KERNEL : Nat := 4
/-- `PERF_RECORD_MISC_GUEST_USER` -/
def PERF_RECORD_MISC_GUEST_USER : Nat := 5

/-- `he_stat__add_cpumode_period`: add `period` to the bucket selected by the
sample's cpu mode; an unrecognized mode falls through the `switch` and
touches no bucket. -/
def he_stat__add_cpumode_period (he_stat : HeStat) (cpumode : Nat)
    (period : Nat) : HeStat :=
  if cpumode = PERF_RECORD_MISC_KERNEL then
    { he_stat with period_sys := he_stat.period_sys + period }
  else if cpumode = PERF_RECORD_MISC_USER then
    { he_stat with period_us := he_stat.period_us + period }
  else if cpumode = PERF_RECORD_MISC_GUEST_KERNEL then
    { he_stat with period_guest_sys := he_stat.period_guest_sys + period }
  else if cpumode = PERF_RECORD_MISC_GUEST_USER then
    { he_stat with period_guest_us := he_stat.period_guest_us + period }
  else
    he_stat

/-- `he_stat__add_period`. -/
def he_stat__add_period (he_stat : HeStat) (period weight : Nat) : HeStat :=
  { he_stat with
    period := he_stat.period + period
    weight := he_stat.weight + weight
    nr_events := he_stat.nr_events + 1 }

/-- `he_stat__add_stat`. -/
def he_stat__add_stat (dest src : HeStat) : HeStat :=
  { period := dest.period + src.period
    period_sys := dest.period_sys + src.period_sys
    period_us := dest.period_us + src.period_us
    period_guest_sys := dest.period_guest_sys + src.period_guest_sys
    period_guest_us := dest.period_guest_us + src.period_guest_us
    nr_events := dest.nr_events + src.nr_events
    weight := dest.weight + src.weight }

/-- `he_stat__decay`: period and nr_events are aged by 7/8; the source
explicitly leaves `weight` alone (its comment asks "XXX need decay for
weight too?"). -/
def he_stat__decay (he_stat : HeStat) : HeStat :=
  { he_stat with
    period := he_stat.period * 7 / 8
    nr_events := he_stat.nr_events * 7 / 8 }

/-- The per-entry filter bitset (`he->filtered`), one Boolean per
`enum hist_filter` bit (`HIST_FILTER__DSO/__THREAD/__PARENT/__SYMBOL`). -/
structure FilterFlags where
  dso : Bool
  thread : Bool
  parent : Bool
  symbol : Bool
deriving DecidableEq, Repr

/-- `he->filtered == 0`. -/
def noFlags : FilterFlags := ⟨false, false, false, false⟩

/-- The four filter reasons of `enum hist_filter`. -/
inductive FilterKind where
  | dso | thread | parent | symbol
deriving DecidableEq, Repr

/-- `h->filtered |= (1 << filter)`. -/
def setFlag (k : FilterKind) (f : FilterFlags) : FilterFlags :=
  match k with
  | .dso => { f with dso := true }
  | .thread => { f with thread := true }
  | .parent => { f with parent := true }
  | .symbol => { f with symbol := true }

/-- `h->filtered &= ~(1 << filter)`. -/
def clearFlag (k : FilterKind) (f : FilterFlags) : FilterFlags :=
  match k with
  | .dso => { f with dso := false }
  | .thread => { f with thread := false }
  | .parent => { f with parent := false }
  | .symbol => { f with symbol := false }

/-- `he->filtered | other` (used for `symbol__parent_filter(..) | al->filtered`). -/
def orFlags (a b : FilterFlags) : FilterFlags :=
  ⟨a.dso || b.dso, a.thread || b.thread, a.parent || b.parent,
   a.symbol || b.symbol⟩

/-- `he->ms.map`: the engine only reads the dso identity and the dso name
length of a map. -/
structure MapInfo where
  dso : Nat
  dsoNamelen : Nat
deriving DecidableEq, Repr

/-- `he->ms.sym`: the engine only reads the name (for the symbol filter's
`strstr`) and the name length (for column widths). -/
structure SymInfo where
  name : List Char
  namelen : Nat
deriving DecidableEq, Repr

/-- One side (`from` or `to`) of `he->branch_info`; `dso__name_len` of the
side's map is kept as an opaque length. -/
structure BranchSide where
  sym : Option Nat
  dsoNamelen : Nat
deriving DecidableEq, Repr

/-- `he->branch_info`. -/
structure BranchInfo where
  bfrom : BranchSide
  bto : BranchSide
deriving DecidableEq, Repr

/-- `he->mem_info` (only the `daddr` resolution feeds the engine's column
width computation). -/
structure MemInfo where
  daddrSym : Option Nat
  daddrMap : Option Nat
deriving DecidableEq, Repr

/-- Which tree the single `rb_node_in` of an entry is linked into: one of
the two insertion buffers `entries_in_array[0/1]` or `entries_collapsed`. -/
inductive InLoc where
  | buf (b : Bool)
  | collapsed
deriving DecidableEq, Repr

/-- One aggregation bucket (`struct hist_entry`).  `eid` is a bookkeeping
identity for the store (the C code's node address). -/
structure HistEntry where
  eid : Nat
  key : Nat
  ckey : Nat
  thread : Nat
  commLen : Nat
  msMap : Option MapInfo
  msSym : Option SymInfo
  level : Char
  parent : Option Nat
  branch_info : Option BranchInfo
  mem_info : Option MemInfo
  transaction : Nat
  stat : HeStat
  filtered : FilterFlags
  dummy : Bool
  used : Bool
  unfolded : Bool
  row_offset : Nat
  node_in : InLoc
  node_out : Bool
deriving DecidableEq, Repr

/-- One resolved sample handed to `__hists__add_entry` (the relevant fields
of `struct addr_location` plus the explicit arguments). -/
structure Sample where
  key : Nat
  ckey : Nat
  thread : Nat
  commLen : Nat
  msMap : Option MapInfo
  msSym : Option SymInfo
  level : Char
  cpumode : Nat
  parent : Option Nat
  al_filtered : FilterFlags
  branch_info : Option BranchInfo
  mem_info : Option MemInfo
  transaction : Nat
  period : Nat
  weight : Nat
deriving DecidableEq, Repr

/-- The global configuration read by the engine: `sort__need_collapse` and
the `symbol_conf`/`verbose` globals, plus the opaque
`hist_entry__transaction_len()`. -/
structure SymbolConf where
  needCollapse : Bool
  exclude_other : Bool
  verbose : Bool
  col_width_list_str : Bool
  field_sep : Bool
  dso_list : Bool
  transactionLen : Nat
deriving DecidableEq, Repr

/-- The column width array `hists->col_len`, indexed by `enum hist_column`. -/
def Cols := Nat → Nat

/-- `HISTC_SYMBOL` -/
def HISTC_SYMBOL : Nat := 0
/-- `HISTC_COMM` -/
def HISTC_COMM : Nat := 1
/-- `HISTC_THREAD` -/
def HISTC_THREAD : Nat := 2
/-- `HISTC_DSO` -/
def HISTC_DSO : Nat := 3
/-- `HISTC_PARENT` -/
def HISTC_PARENT : Nat := 4
/-- `HISTC_SYMBOL_FROM` -/
def HISTC_SYMBOL_FROM : Nat := 5
/-- `HISTC_DSO_FROM` -/
def HISTC_DSO_FROM : Nat := 6
/-- `HISTC_SYMBOL_TO` -/
def HISTC_SYMBOL_TO : Nat := 7
/-- `HISTC_DSO_TO` -/
def HISTC_DSO_TO : Nat := 8
/-- `HISTC_MEM_DADDR_SYMBOL` -/
def HISTC_MEM_DADDR_SYMBOL : Nat := 9
/-- `HISTC_MEM_DADDR_DSO` -/
def HISTC_MEM_DADDR_DSO : Nat := 10
/-- `HISTC_MEM_LOCKED` -/
def HISTC_MEM_LOCKED : Nat := 11
/-- `HISTC_MEM_TLB` -/
def HISTC_MEM_TLB : Nat := 12
/-- `HISTC_MEM_SNOOP` -/
def HISTC_MEM_SNOOP : Nat := 13
/-- `HISTC_MEM_LVL` -/
def HISTC_MEM_LVL : Nat := 14
/-- `HISTC_LOCAL_WEIGHT` -/
def HISTC_LOCAL_WEIGHT : Nat := 15
/-- `HISTC_GLOBAL_WEIGHT` -/
def HISTC_GLOBAL_WEIGHT : Nat := 16
/-- `HISTC_TRANSACTION` -/
def HISTC_TRANSACTION : Nat := 17

/-- `hists__col_len`. -/
def hists__col_len (c : Cols) (col : Nat) : Nat := c col

/-- `hists__set_col_len`. -/
def hists__set_col_len (c : Cols) (col len : Nat) : Cols :=
  fun x => if x = col then len else c x

/-- `hists__new_col_len`: widen the stored column width if the new length is
strictly larger, reporting whether it widened. -/
def hists__new_col_len (c : Cols) (col len : Nat) : Bool × Cols :=
  if len > hists__col_len c col then (true, hists__set_col_len c col len)
  else (false, c)

/-- `hists__reset_col_len` (all columns reset to 0). -/
def hists__reset_col_len : Cols := fun _ => 0

/-- `BITS_PER_LONG / 4` on the 64-bit targets considered. -/
def unresolved_col_width : Nat := 16

/-- `hists__set_unres_dso_col_len`. -/
def hists__set_unres_dso_col_len (cfg : SymbolConf) (c : Cols)
    (dso : Nat) : Cols :=
  if hists__col_len c dso < unresolved_col_width ∧
      ¬cfg.col_width_list_str ∧ ¬cfg.field_sep ∧ ¬cfg.dso_list then
    hists__set_col_len c dso unresolved_col_width
  else c

/-- `hists__calc_col_len`: recompute each display column's width as the
maximum of the stored width and the formatted length of this entry's value
(the C function transcribed over the opaque length fields). -/
def hists__calc_col_len (cfg : SymbolConf) (c : Cols) (h : HistEntry) : Cols :=
  let verboseExtra := if cfg.verbose then unresolved_col_width + 2 + 3 else 0
  let c :=
    match h.msSym with
    | some sym =>
        (hists__new_col_len c HISTC_SYMBOL (sym.namelen + 4 + verboseExtra)).2
    | none =>
        let c := (hists__new_col_len c HISTC_SYMBOL
          (unresolved_col_width + 4 + 2)).2
        hists__set_unres_dso_col_len cfg c HISTC_DSO
  let len := h.commLen
  let c :=
    match hists__new_col_len c HISTC_COMM len with
    | (true, c) => hists__set_col_len c HISTC_THREAD (len + 6)
    | (false, c) => c
  let c :=
    match h.msMap with
    | some m => (hists__new_col_len c HISTC_DSO m.dsoNamelen).2
    | none => c
  let c :=
    match h.parent with
    | some plen => (hists__new_col_len c HISTC_PARENT plen).2
    | none => c
  let c :=
    match h.branch_info with
    | some bi =>
        let c :=
          match bi.bfrom.sym with
          | some fs =>
              let c := (hists__new_col_len c HISTC_SYMBOL_FROM
                (fs + 4 + verboseExtra)).2
              (hists__new_col_len c HISTC_DSO_FROM bi.bfrom.dsoNamelen).2
          | none =>
              let c := (hists__new_col_len c HISTC_SYMBOL_FROM
                (unresolved_col_width + 4 + 2)).2
              hists__set_unres_dso_col_len cfg c HISTC_DSO_FROM
        match bi.bto.sym with
        | some ts =>
            let c := (hists__new_col_len c HISTC_SYMBOL_TO
              (ts + 4 + verboseExtra)).2
            (hists__new_col_len c HISTC_DSO_TO bi.bto.dsoNamelen).2
        | none =>
            let c := (hists__new_col_len c HISTC_SYMBOL_TO
              (unresolved_col_width + 4 + 2)).2
            hists__set_unres_dso_col_len cfg c HISTC_DSO_TO
    | none => c
  let c :=
    match h.mem_info with
    | some mi =>
        let c :=
          match mi.daddrSym with
          | some ds =>
              (hists__new_col_len c HISTC_MEM_DADDR_SYMBOL
                (ds + 4 + unresolved_col_width + 2)).2
          | none =>
              (hists__new_col_len c HISTC_MEM_DADDR_SYMBOL
                (unresolved_col_width + 4 + 2)).2
        match mi.daddrMap with
        | some dm => (hists__new_col_len c HISTC_MEM_DADDR_DSO dm).2
        | none => hists__set_unres_dso_col_len cfg c HISTC_MEM_DADDR_DSO
    | none =>
        let c := (hists__new_col_len c HISTC_MEM_DADDR_SYMBOL
          (unresolved_col_width + 4 + 2)).2
        hists__set_unres_dso_col_len cfg c HISTC_MEM_DADDR_DSO
  let c := (hists__new_col_len c HISTC_MEM_LOCKED 6).2
  let c := (hists__new_col_len c HISTC_MEM_TLB 22).2
  let c := (hists__new_col_len c HISTC_MEM_SNOOP 12).2
  let c := (hists__new_col_len c HISTC_MEM_LVL (21 + 3)).2
  let c := (hists__new_col_len c HISTC_LOCAL_WEIGHT 12).2
  let c := (hists__new_col_len c HISTC_GLOBAL_WEIGHT 12).2
  if h.transaction ≠ 0 then
    (hists__new_col_len c HISTC_TRANSACTION cfg.transactionLen).2
  else c

/-- The `hists` container: the entry store plus the aggregate counters and
filter state.  `entries_in_cur` is the `entries_in` pointer into
`entries_in_array[2]` (false selects buffer 0); the trees themselves are the
`node_in`/`node_out` fields of the stored entries. -/
structure Hists where
  store : List HistEntry
  next_eid : Nat
  entries_in_cur : Bool
  total_period : Nat
  total_non_filtered_period : Nat
  nr_entries : Nat
  nr_non_filtered_entries : Nat
  nr_non_filtered_samples : Nat
  dso_filter : Option Nat
  thread_filter : Option Nat
  symbol_filter_str : Option (List Char)
  col_len : Cols

/-- A freshly initialized, empty `hists`. -/
def freshHists : Hists :=
  { store := []
    next_eid := 0
    entries_in_cur := false
    total_period := 0
    total_non_filtered_period := 0
    nr_entries := 0
    nr_non_filtered_entries := 0
    nr_non_filtered_samples := 0
    dso_filter := none
    thread_filter := none
    symbol_filter_str := none
    col_len := hists__reset_col_len }

/-- `hist_entry__cmp` (modelled from the spec: the lexicographic fold over
the configured sort columns is a total order, abstracted as comparison of
the opaque key). -/
def hist_entry__cmp (left right : HistEntry) : Int :=
  (left.key : Int) - (right.key : Int)

/-- `hist_entry__collapse` (modelled from the spec, like `hist_entry__cmp`,
over the collapse key). -/
def hist_entry__collapse (left right : HistEntry) : Int :=
  (left.ckey : Int) - (right.ckey : Int)

/-- `symbol__parent_filter`. -/
def symbol__parent_filter (cfg : SymbolConf) (parent : Option Nat) :
    FilterFlags :=
  if cfg.exclude_other ∧ parent = none then setFlag .parent noFlags
  else noFlags

/-- The `struct hist_entry entry = { ... }` template built by
`__hists__add_entry` from the resolved sample. -/
def entryTemplate (cfg : SymbolConf) (smp : Sample) : HistEntry :=
  { eid := 0
    key := smp.key
    ckey := smp.ckey
    thread := smp.thread
    commLen := smp.commLen
    msMap := smp.msMap
    msSym := smp.msSym
    level := smp.level
    parent := smp.parent
    branch_info := smp.branch_info
    mem_info := smp.mem_info
    transaction := smp.transaction
    stat := { zeroStat with
              nr_events := 1
              period := smp.period
              weight := smp.weight }
    filtered := orFlags (symbol__parent_filter cfg smp.parent)
      smp.al_filtered
    dummy := false
    used := false
    unfolded := false
    row_offset := 0
    node_in := .buf false
    node_out := false }

/-- The tree walk of `add_hist_entry` over the current insertion buffer:
find the entry with equal sort key and merge the sample's period/weight into
it (also refreshing its `ms.map` from the incoming sample), or report that
no entry matched.  Returns `none` when a new entry must be linked in. -/
def addGo (b : Bool) (smp : Sample) :
    List HistEntry → Option (List HistEntry)
  | [] => none
  | he :: rest =>
      if he.node_in = .buf b ∧ he.key = smp.key then
        some ({ he with
                stat := he_stat__add_cpumode_period
                  (he_stat__add_period he.stat smp.period smp.weight)
                  smp.cpumode smp.period
                msMap := smp.msMap } :: rest)
      else
        (addGo b smp rest).map (he :: ·)

/-- `__hists__add_entry` / `add_hist_entry`: merge the sample into the
matching entry of the current insertion buffer, or link a fresh entry; in
both cases the per-cpu-mode bucket receives the sample's period
(`he_stat__add_cpumode_period` runs at the shared `out:` label). -/
def __hists__add_entry (cfg : SymbolConf) (smp : Sample) (s : Hists) :
    Hists :=
  match addGo s.entries_in_cur smp s.store with
  | some store => { s with store := store }
  | none =>
      let he := { entryTemplate cfg smp with
                  eid := s.next_eid
                  stat := he_stat__add_cpumode_period
                    (entryTemplate cfg smp).stat smp.cpumode smp.period
                  node_in := .buf s.entries_in_cur
                  node_out := false }
      { s with store := s.store ++ [he], next_eid := s.next_eid + 1 }

/-- A whole batch of inserts (left to right). -/
def insertMany (cfg : SymbolConf) (smps : List Sample) (s : Hists) : Hists :=
  smps.foldl (fun acc smp => __hists__add_entry cfg smp acc) s

/-- The tree several routines read their entries from: the collapsed tree
when collapsing is configured, the current insertion buffer otherwise. -/
def rootLoc (cfg : SymbolConf) (s : Hists) : InLoc :=
  if cfg.needCollapse then .collapsed else .buf s.entries_in_cur

/-- `hists__filter_entry_by_dso`: with an active dso filter, an entry whose
map is unresolved or belongs to another dso gets the DSO bit set; returns
whether the entry is filtered out. -/
def hists__filter_entry_by_dso (dso_filter : Option Nat) (he : HistEntry) :
    Bool × HistEntry :=
  match dso_filter with
  | none => (false, he)
  | some d =>
      if (match he.msMap with
          | none => true
          | some m => m.dso ≠ d) then
        (true, { he with filtered := setFlag .dso he.filtered })
      else (false, he)

/-- `hists__filter_entry_by_thread`. -/
def hists__filter_entry_by_thread (thread_filter : Option Nat)
    (he : HistEntry) : Bool × HistEntry :=
  match thread_filter with
  | none => (false, he)
  | some t =>
      if he.thread ≠ t then
        (true, { he with filtered := setFlag .thread he.filtered })
      else (false, he)

/-- `strstr(haystack, needle) != NULL` over the modelled symbol names. -/
def strstrFound (hay nee : List Char) : Bool :=
  hay.tails.any (fun t => nee.isPrefixOf t)

/-- `hists__filter_entry_by_symbol`. -/
def hists__filter_entry_by_symbol (symbol_filter_str : Option (List Char))
    (he : HistEntry) : Bool × HistEntry :=
  match symbol_filter_str with
  | none => (false, he)
  | some f =>
      if (match he.msSym with
          | none => true
          | some sym => ¬strstrFound sym.name f) then
        (true, { he with filtered := setFlag .symbol he.filtered })
      else (false, he)

/-- `hists__apply_filters`: (re)apply all three set-only filter predicates
to a freshly collapsed entry. -/
def hists__apply_filters (s : Hists) (he : HistEntry) : HistEntry :=
  let he := (hists__filter_entry_by_dso s.dso_filter he).2
  let he := (hists__filter_entry_by_thread s.thread_filter he).2
  (hists__filter_entry_by_symbol s.symbol_filter_str he).2

/-- `hists__collapse_insert_entry`: look for a collapsed entry with the
same collapse key; merge the incoming entry's statistics into it and free
the incoming entry, or link the incoming entry into the collapsed tree
(callchain merging is disabled throughout, see the header). -/
def hists__collapse_insert_entry (he : HistEntry) :
    List HistEntry → Option (List HistEntry)
  | [] => none
  | iter :: rest =>
      if iter.node_in = .collapsed ∧ iter.ckey = he.ckey then
        some ({ iter with stat := he_stat__add_stat iter.stat he.stat }
          :: rest)
      else
        (hists__collapse_insert_entry he rest).map (iter :: ·)

/-- One step of the `hists__collapse_resort` loop: move `he` out of the
insertion buffer into the collapsed tree, merging on collision; on first
insertion (no collision) the filters are (re)applied to the survivor. -/
def collapseStep (s : Hists) (store : List HistEntry) (he : HistEntry) :
    List HistEntry :=
  let he := { he with node_in := .collapsed }
  match hists__collapse_insert_entry he store with
  | some store => store
  | none => store ++ [hists__apply_filters s he]

/-- `hists__get_rotate_entries_in` + `hists__collapse_resort`: no-op unless
collapsing is configured; otherwise atomically take the current insertion
buffer (advancing the `entries_in` pointer to the other buffer) and
re-insert each of its entries into the collapsed tree. -/
def hists__collapse_resort (cfg : SymbolConf) (s : Hists) : Hists :=
  if ¬cfg.needCollapse then s
  else
    let b := s.entries_in_cur
    let moved := s.store.filter (fun e => e.node_in = .buf b)
    let rest := s.store.filter (fun e => ¬(e.node_in = .buf b))
    { s with
      entries_in_cur := !b
      store := moved.foldl (collapseStep s) rest }

/-- `hists__inc_filter_stats`. -/
def hists__inc_filter_stats (s : Hists) (h : HistEntry) : Hists :=
  { s with
    nr_non_filtered_entries := s.nr_non_filtered_entries + 1
    total_non_filtered_period :=
      s.total_non_filtered_period + h.stat.period }

/-- `hists__inc_stats`. -/
def hists__inc_stats (s : Hists) (h : HistEntry) : Hists :=
  let s := if h.filtered = noFlags then hists__inc_filter_stats s h else s
  { s with
    nr_entries := s.nr_entries + 1
    total_period := s.total_period + h.stat.period }

/-- `hists__reset_filter_stats`. -/
def hists__reset_filter_stats (s : Hists) : Hists :=
  { s with
    nr_non_filtered_entries := 0
    total_non_filtered_period := 0 }

/-- `hists__reset_stats`. -/
def hists__reset_stats (s : Hists) : Hists :=
  hists__reset_filter_stats { s with nr_entries := 0, total_period := 0 }

/-- The body of the `hists__output_resort` loop over the chosen source tree:
link each of its entries into the (emptied) output tree, accumulate the
statistics, and recompute the column widths of unfiltered entries. -/
def resortGo (cfg : SymbolConf) (root : InLoc) :
    List HistEntry → Hists → Hists
  | [], s => s
  | n :: rest, s =>
      if n.node_in = root then
        let s := hists__inc_stats s n
        let s := if n.filtered = noFlags then
            { s with col_len := hists__calc_col_len cfg s.col_len n }
          else s
        let s := resortGo cfg root rest s
        { s with store := { n with node_out := true } :: s.store }
      else
        let s := resortGo cfg root rest s
        { s with store := { n with node_out := false } :: s.store }

/-- `hists__output_resort`: rebuild the output tree (`hists->entries =
RB_ROOT` drops every previous output membership) from the collapsed tree,
or from the current insertion buffer when collapsing is disabled, resetting
and recomputing the aggregate statistics and column widths. -/
def hists__output_resort (cfg : SymbolConf) (s : Hists) : Hists :=
  let root : InLoc := rootLoc cfg s
  let store := s.store
  let s := hists__reset_stats s
  let s := { s with col_len := hists__reset_col_len, store := [] }
  resortGo cfg root store s

/-- `hists__decay_entry`: age the entry's statistics and subtract the lost
period from the running totals (the non-filtered total only for unfiltered
entries); reports whether the entry's period has reached zero.  Takes and
returns the two totals it touches. -/
def hists__decay_entry (tp tnf : Nat) (he : HistEntry) :
    Nat × Nat × HistEntry × Bool :=
  let prev_period := he.stat.period
  if prev_period = 0 then (tp, tnf, he, true)
  else
    let he := { he with stat := he_stat__decay he.stat }
    let diff := prev_period - he.stat.period
    (tp - diff,
     if he.filtered = noFlags then tnf - diff else tnf,
     he,
     he.stat.period = 0)

/-- The per-entry outcome of one `hists__decay_entries` iteration: `none`
when the entry is erased from every index and freed, `some` of the
(possibly aged) surviving entry.  The `||` of the C condition
short-circuits: an entry matched by a zap flag is erased (if unpinned)
without `hists__decay_entry` ever running on it. -/
def decayEnt (zap_user zap_kernel : Bool) (n : HistEntry) :
    Option HistEntry :=
  if ¬n.node_out then some n
  else if (zap_user ∧ n.level = '.') ∨ (zap_kernel ∧ n.level ≠ '.') then
    if ¬n.used then none else some n
  else if n.stat.period = 0 then
    if ¬n.used then none else some n
  else
    let n := { n with stat := he_stat__decay n.stat }
    if n.stat.period = 0 ∧ ¬n.used then none else some n

/-- The loop of `hists__decay_entries` over the output tree, threading the
four counters it updates (total period, total non-filtered period,
nr_entries, nr_non_filtered_entries).  Erasing an entry removes it from the
store, i.e. from the output tree, the collapsed tree and (when collapsing
is disabled, where the C code frees the node still linked in the insertion
buffer) the insertion buffer. -/
def decayGo (zap_user zap_kernel : Bool) :
    List HistEntry → Nat → Nat → Nat → Nat →
    List HistEntry × Nat × Nat × Nat × Nat
  | [], tp, tnf, ne, nne => ([], tp, tnf, ne, nne)
  | n :: rest, tp, tnf, ne, nne =>
      if ¬n.node_out then
        let (st, tp, tnf, ne, nne) :=
          decayGo zap_user zap_kernel rest tp tnf ne nne
        (n :: st, tp, tnf, ne, nne)
      else if (zap_user ∧ n.level = '.') ∨
              (zap_kernel ∧ n.level ≠ '.') then
        if ¬n.used then
          decayGo zap_user zap_kernel rest tp tnf (ne - 1)
            (if n.filtered = noFlags then nne - 1 else nne)
        else
          let (st, tp, tnf, ne, nne) :=
            decayGo zap_user zap_kernel rest tp tnf ne nne
          (n :: st, tp, tnf, ne, nne)
      else
        let (tp', tnf', n', dead) := hists__decay_entry tp tnf n
        if dead ∧ ¬n'.used then
          decayGo zap_user zap_kernel rest tp' tnf' (ne - 1)
            (if n'.filtered = noFlags then nne - 1 else nne)
        else
          let (st, tp, tnf, ne, nne) :=
            decayGo zap_user zap_kernel rest tp' tnf' ne nne
          (n' :: st, tp, tnf, ne, nne)

/-- `hists__decay_entries`. -/
def hists__decay_entries (zap_user zap_kernel : Bool) (s : Hists) : Hists :=
  let (st, tp, tnf, ne, nne) := decayGo zap_user zap_kernel s.store
    s.total_period s.total_non_filtered_period s.nr_entries
    s.nr_non_filtered_entries
  { s with
    store := st
    total_period := tp
    total_non_filtered_period := tnf
    nr_entries := ne
    nr_non_filtered_entries := nne }

/-- The statistics a filter pass accumulates while walking the output tree
(`nr_non_filtered_samples`, `nr_non_filtered_entries`,
`total_non_filtered_period`, and the column widths). -/
structure FAcc where
  nfs : Nat
  nne : Nat
  tnf : Nat
  cols : Cols

/-- `hists__remove_entry_filter`: clear this filter's bit; an entry left
unfiltered is folded, re-counted into the non-filtered statistics and its
column widths recomputed. -/
def hists__remove_entry_filter (cfg : SymbolConf) (k : FilterKind)
    (acc : FAcc) (h : HistEntry) : FAcc × HistEntry :=
  let h := { h with filtered := clearFlag k h.filtered }
  if h.filtered ≠ noFlags then (acc, h)
  else
    let h := { h with unfolded := false, row_offset := 0 }
    ({ nfs := acc.nfs + h.stat.nr_events
       nne := acc.nne + 1
       tnf := acc.tnf + h.stat.period
       cols := hists__calc_col_len cfg acc.cols h },
     h)

/-- The common loop shape of `hists__filter_by_dso/thread/symbol` over the
output tree: `skipNoParent` is the `symbol_conf.exclude_other && !h->parent`
`continue` of the dso variant, `pred` the set-only filter predicate, `k`
the bit the pass owns. -/
def filterGo (cfg : SymbolConf) (skipNoParent : Bool)
    (pred : HistEntry → Bool × HistEntry) (k : FilterKind) :
    List HistEntry → FAcc → List HistEntry × FAcc
  | [], acc => ([], acc)
  | h :: rest, acc =>
      if ¬h.node_out then
        let (st, acc) := filterGo cfg skipNoParent pred k rest acc
        (h :: st, acc)
      else if skipNoParent ∧ h.parent = none then
        let (st, acc) := filterGo cfg skipNoParent pred k rest acc
        (h :: st, acc)
      else
        match pred h with
        | (true, h) =>
            let (st, acc) := filterGo cfg skipNoParent pred k rest acc
            (h :: st, acc)
        | (false, h) =>
            let (acc, h) := hists__remove_entry_filter cfg k acc h
            let (st, acc) := filterGo cfg skipNoParent pred k rest acc
            (h :: st, acc)

/-- `hists__filter_by_dso` (with the browser's preceding assignment of
`hists->dso_filter` folded in): reset the non-filtered statistics and the
column widths, then re-evaluate the DSO filter bit of every output entry,
re-counting each entry that ends up completely unfiltered exactly once. -/
def hists__filter_by_dso (cfg : SymbolConf) (d : Option Nat) (s : Hists) :
    Hists :=
  let s := { s with dso_filter := d, nr_non_filtered_samples := 0 }
  let s := hists__reset_filter_stats s
  let (st, acc) := filterGo cfg cfg.exclude_other
    (hists__filter_entry_by_dso d) .dso s.store
    ⟨s.nr_non_filtered_samples, s.nr_non_filtered_entries,
     s.total_non_filtered_period, hists__reset_col_len⟩
  { s with
    store := st
    nr_non_filtered_samples := acc.nfs
    nr_non_filtered_entries := acc.nne
    total_non_filtered_period := acc.tnf
    col_len := acc.cols }

/-- `hists__filter_by_thread` (with the assignment of
`hists->thread_filter` folded in). -/
def hists__filter_by_thread (cfg : SymbolConf) (t : Option Nat) (s : Hists) :
    Hists :=
  let s := { s with thread_filter := t, nr_non_filtered_samples := 0 }
  let s := hists__reset_filter_stats s
  let (st, acc) := filterGo cfg false
    (hists__filter_entry_by_thread t) .thread s.store
    ⟨s.nr_non_filtered_samples, s.nr_non_filtered_entries,
     s.total_non_filtered_period, hists__reset_col_len⟩
  { s with
    store := st
    nr_non_filtered_samples := acc.nfs
    nr_non_filtered_entries := acc.nne
    total_non_filtered_period := acc.tnf
    col_len := acc.cols }

/-- `hists__filter_by_symbol` (with the assignment of
`hists->symbol_filter_str` folded in). -/
def hists__filter_by_symbol (cfg : SymbolConf) (f : Option (List Char))
    (s : Hists) : Hists :=
  let s := { s with symbol_filter_str := f, nr_non_filtered_samples := 0 }
  let s := hists__reset_filter_stats s
  let (st, acc) := filterGo cfg false
    (hists__filter_entry_by_symbol f) .symbol s.store
    ⟨s.nr_non_filtered_samples, s.nr_non_filtered_entries,
     s.total_non_filtered_period, hists__reset_col_len⟩
  { s with
    store := st
    nr_non_filtered_samples := acc.nfs
    nr_non_filtered_entries := acc.nne
    total_non_filtered_period := acc.tnf
    col_len := acc.cols }

/-- `hists__add_dummy_entry`: search the pair's collapse key in the leader's
collapsed tree (insertion buffer when collapsing is disabled); if absent,
link a copy of the pair with zeroed statistics, count it via
`hists__inc_stats`, and mark it as a dummy. -/
def hists__add_dummy_entry (cfg : SymbolConf) (s : Hists)
    (pair : HistEntry) : Hists × HistEntry :=
  let root : InLoc := rootLoc cfg s
  match s.store.find? (fun e => e.node_in = root ∧ e.ckey = pair.ckey) with
  | some he => (s, he)
  | none =>
      let he := { pair with
                  eid := s.next_eid
                  stat := zeroStat
                  node_in := root
                  node_out := false }
      let s := hists__inc_stats s he
      let he := { he with dummy := true }
      let s := { s with store := s.store ++ [he], next_eid := s.next_eid + 1 }
      (s, he)

/-- Sum of `Stat.period` over the entries of a store that are linked into
the output tree. -/
def sumOutput (l : List HistEntry) : Nat :=
  (l.map (fun e => if e.node_out then e.stat.period else 0)).sum

/-- Sum of `Stat.period` over the non-dummy, non-filtered entries of a
store that are linked into the output tree (the quantity the data-model
invariant of the spec compares to `total_non_filtered_period`). -/
def sumOutputNDNF (l : List HistEntry) : Nat :=
  (l.map (fun e =>
    if e.node_out ∧ ¬e.dummy ∧ e.filtered = noFlags then e.stat.period
    else 0)).sum

/-- The spec's data-model invariant for a table state. -/
def histsInv (s : Hists) : Prop :=
  sumOutputNDNF s.store = s.total_non_filtered_period

/-- Sum of `Stat.period` over the entries linked in the current insertion
buffer (the insertion index). -/
def sumInsertionIndex (s : Hists) : Nat :=
  (s.store.map (fun e =>
    if e.node_in = .buf s.entries_in_cur then e.stat.period else 0)).sum

/-- The kernel/user/guest-kernel/guest-user period split of a stat. -/
def bucketSum (st : HeStat) : Nat :=
  st.period_sys + st.period_us + st.period_guest_sys + st.period_guest_us

/-- Table states reachable from a fresh table through the engine's
operations (insert, collapse, output resort, decay with arbitrary zap
flags, and the three filter toggles). -/
inductive Reachable (cfg : SymbolConf) : Hists → Prop where
  | init : Reachable cfg freshHists
  | insert {s} (smp : Sample) (h : Reachable cfg s) :
      Reachable cfg (__hists__add_entry cfg smp s)
  | collapse {s} (h : Reachable cfg s) :
      Reachable cfg (hists__collapse_resort cfg s)
  | resort {s} (h : Reachable cfg s) :
      Reachable cfg (hists__output_resort cfg s)
  | decay {s} (zap_user zap_kernel : Bool) (h : Reachable cfg s) :
      Reachable cfg (hists__decay_entries zap_user zap_kernel s)
  | fdso {s} (d : Option Nat) (h : Reachable cfg s) :
      Reachable cfg (hists__filter_by_dso cfg d s)
  | fthread {s} (t : Option Nat) (h : Reachable cfg s) :
      Reachable cfg (hists__filter_by_thread cfg t s)
  | fsymbol {s} (f : Option (List Char)) (h : Reachable cfg s) :
      Reachable cfg (hists__filter_by_symbol cfg f s)

/-- Table states built solely by inserts and (collapse-)merges from a fresh
table. -/
inductive ReachableIC (cfg : SymbolConf) : Hists → Prop where
  | init : ReachableIC cfg freshHists
  | insert {s} (smp : Sample) (h : ReachableIC cfg s) :
      ReachableIC cfg (__hists__add_entry cfg smp s)
  | collapse {s} (h : ReachableIC cfg s) :
      ReachableIC cfg (hists__collapse_resort cfg s)

/-- A configuration with collapsing disabled and no extra display options
(the common `perf top`-style setup the concrete evaluations use). -/
def cfg0 : SymbolConf :=
  { needCollapse := false
    exclude_other := false
    verbose := false
    col_width_list_str := false
    field_sep := false
    dso_list := false
    transactionLen := 0 }

/-- The same configuration with collapsing configured. -/
def cfgC : SymbolConf := { cfg0 with needCollapse := true }

/-- A concrete resolved user-mode sample with period 8. -/
def sampleA : Sample :=
  { key := 1
    ckey := 1
    thread := 5
    commLen := 3
    msMap := some ⟨7, 4⟩
    msSym := some ⟨['f', 'o', 'o'], 3⟩
    level := '.'
    cpumode := PERF_RECORD_MISC_USER
    parent := none
    al_filtered := noFlags
    branch_info := none
    mem_info := none
    transaction := 0
    period := 8
    weight := 2 }

/-- The table obtained by inserting `sampleA` into a fresh table and
resorting the output tree: one unfiltered output entry of period 8, with
`total_non_filtered_period = 8`. -/
def sResorted : Hists :=
  hists__output_resort cfg0 (__hists__add_entry cfg0 sampleA freshHists)

/-- An output entry pinned by the browser (`he->used`), period 8. -/
def pinnedEntry : HistEntry :=
  { eid := 0
    key := 1
    ckey := 1
    thread := 5
    commLen := 3
    msMap := none
    msSym := none
    level := '.'
    parent := none
    branch_info := none
    mem_info := none
    transaction := 0
    stat := ⟨8, 0, 8, 0, 0, 4, 2⟩
    filtered := noFlags
    dummy := false
    used := true
    unfolded := false
    row_offset := 0
    node_in := .buf false
    node_out := true }

/-- A table whose single output entry is pinned. -/
def sPinned : Hists :=
  { freshHists with
    store := [pinnedEntry]
    total_period := 8
    total_non_filtered_period := 8
    nr_entries := 1
    nr_non_filtered_entries := 1 }

/-- A concrete statistics record with weight 8. -/
def statW : HeStat := ⟨8, 0, 0, 0, 0, 8, 8⟩

theorem period_add_cpumode (st : HeStat) (m p : Nat) :
    (he_stat__add_cpumode_period st m p).period = st.period := by
  unfold he_stat__add_cpumode_period
  split_ifs <;> rfl

theorem bucketSum_add_cpumode (st : HeStat) (m p : Nat) :
    bucketSum (he_stat__add_cpumode_period st m p) ≤ bucketSum st + p := by
  unfold he_stat__add_cpumode_period
  split_ifs <;> simp [bucketSum] <;> omega

theorem period_add_period (st : HeStat) (p w : Nat) :
    (he_stat__add_period st p w).period = st.period + p := rfl

theorem bucketSum_add_period (st : HeStat) (p w : Nat) :
    bucketSum (he_stat__add_period st p w) = bucketSum st := rfl

theorem bucketSum_add_stat (a b : HeStat) :
    bucketSum (he_stat__add_stat a b) = bucketSum a + bucketSum b := by
  simp [bucketSum, he_stat__add_stat]
  omega

theorem period_add_stat (a b : HeStat) :
    (he_stat__add_stat a b).period = a.period + b.period := rfl

theorem setFlag_idem (k : FilterKind) (f : FilterFlags) :
    setFlag k (setFlag k f) = setFlag k f := by
  cases f
  cases k <;> rfl

theorem clearFlag_idem (k : FilterKind) (f : FilterFlags) :
    clearFlag k (clearFlag k f) = clearFlag k f := by
  cases f
  cases k <;> rfl

theorem clearFlag_setFlag (k : FilterKind) (f : FilterFlags) :
    clearFlag k (setFlag k f) = clearFlag k f := by
  cases f
  cases k <;> rfl

theorem setFlag_ne_noFlags (k : FilterKind) (f : FilterFlags) :
    setFlag k f ≠ noFlags := by
  cases f
  cases k <;> simp [setFlag, noFlags]

theorem clearFlag_dso_of_false (f : FilterFlags) (h : f.dso = false) :
    clearFlag .dso f = f := by
  cases f
  simp only [clearFlag]
  simp_all

theorem sum_map_congr {α : Type} (f g : α → Nat) :
    ∀ l : List α, (∀ a ∈ l, f a = g a) →
      (l.map f).sum = (l.map g).sum
  | [], _ => rfl
  | a :: l, h => by
      simp only [List.map_cons, List.sum_cons]
      rw [h a (by simp), sum_map_congr f g l (fun x hx => h x (by simp [hx]))]

theorem sum_filterMap_le {α : Type} (f : α → Nat) (g : α → Option α) :
    ∀ l : List α, (∀ a ∈ l, (g a).elim 0 f ≤ f a) →
      ((l.filterMap g).map f).sum ≤ (l.map f).sum
  | [], _ => le_refl _
  | a :: l, h => by
      have hrest := sum_filterMap_le f g l (fun x hx => h x (by simp [hx]))
      have ha := h a (by simp)
      cases hg : g a with
      | none =>
          simp only [List.filterMap_cons, hg, List.map_cons, List.sum_cons]
          omega
      | some b =>
          simp only [List.filterMap_cons, hg, List.map_cons, List.sum_cons]
          simp only [hg, Option.elim] at ha
          omega

theorem sum_filterMap_lt {α : Type} (f : α → Nat) (g : α → Option α)
    (l : List α) (hle : ∀ a ∈ l, (g a).elim 0 f ≤ f a)
    (hwit : ∃ a ∈ l, (g a).elim 0 f < f a) :
    ((l.filterMap g).map f).sum < (l.map f).sum := by
  induction l with
  | nil => rcases hwit with ⟨a, ha, _⟩; cases ha
  | cons a l ih =>
      have ha := hle a (by simp)
      have hrestle := sum_filterMap_le f g l (fun x hx => hle x (by simp [hx]))
      rcases hwit with ⟨w, hw, hwlt⟩
      rcases List.mem_cons.mp hw with rfl | hw
      · cases hg : g w with
        | none =>
            simp only [List.filterMap_cons, hg, List.map_cons, List.sum_cons]
            simp only [hg, Option.elim] at hwlt
            omega
        | some b =>
            simp only [List.filterMap_cons, hg, List.map_cons, List.sum_cons]
            simp only [hg, Option.elim] at hwlt
            omega
      · have hrest := ih (fun x hx => hle x (by simp [hx])) ⟨w, hw, hwlt⟩
        cases hg : g a with
        | none =>
            simp only [List.filterMap_cons, hg, List.map_cons, List.sum_cons]
            omega
        | some b =>
            simp only [List.filterMap_cons, hg, List.map_cons, List.sum_cons]
            simp only [hg, Option.elim] at ha
            omega

theorem decayGo_store (zu zk : Bool) :
    ∀ (l : List HistEntry) (tp tnf ne nne : Nat),
      (decayGo zu zk l tp tnf ne nne).1 = l.filterMap (decayEnt zu zk)
  | [], tp, tnf, ne, nne => by simp [decayGo]
  | n :: rest, tp, tnf, ne, nne => by
      by_cases hout : n.node_out
      · by_cases hzap : (zu ∧ n.level = '.') ∨ (zk ∧ n.level ≠ '.')
        · by_cases hused : n.used
          · have ih := decayGo_store zu zk rest tp tnf ne nne
            simp only [decayGo, decayEnt, hout, hzap, hused,
              List.filterMap_cons]
            simp_all
          · have ih := decayGo_store zu zk rest tp tnf
              (ne - 1) (if n.filtered = noFlags then nne - 1 else nne)
            simp only [decayGo, decayEnt, hout, hzap, hused,
              List.filterMap_cons]
            simp_all
        · by_cases hzero : n.stat.period = 0
          · by_cases hused : n.used
            · have ih := decayGo_store zu zk rest tp tnf ne nne
              simp only [decayGo, decayEnt, hists__decay_entry, hout, hzap,
                hzero, hused, List.filterMap_cons]
              simp_all
            · have ih := decayGo_store zu zk rest tp tnf
                (ne - 1) (if n.filtered = noFlags then nne - 1 else nne)
              simp only [decayGo, decayEnt, hists__decay_entry, hout, hzap,
                hzero, hused, List.filterMap_cons]
              simp_all
          · by_cases hused : n.used
            · have ih := decayGo_store zu zk rest
                (tp - (n.stat.period - n.stat.period * 7 / 8))
                (if n.filtered = noFlags then
                  tnf - (n.stat.period - n.stat.period * 7 / 8) else tnf)
                ne nne
              simp only [decayGo, decayEnt, hists__decay_entry, hout, hzap,
                hzero, hused, he_stat__decay, List.filterMap_cons]
              simp_all
            · by_cases hdead : n.stat.period * 7 / 8 = 0
              · have ih := decayGo_store zu zk rest
                  (tp - (n.stat.period - n.stat.period * 7 / 8))
                  (if n.filtered = noFlags then
                    tnf - (n.stat.period - n.stat.period * 7 / 8) else tnf)
                  (ne - 1) (if n.filtered = noFlags then nne - 1 else nne)
                simp only [decayGo, decayEnt, hists__decay_entry, hout, hzap,
                  hzero, hused, hdead, he_stat__decay, List.filterMap_cons]
                simp_all
              · have ih := decayGo_store zu zk rest
                  (tp - (n.stat.period - n.stat.period * 7 / 8))
                  (if n.filtered = noFlags then
                    tnf - (n.stat.period - n.stat.period * 7 / 8) else tnf)
                  ne nne
                simp only [decayGo, decayEnt, hists__decay_entry, hout, hzap,
                  hzero, hused, hdead, he_stat__decay, List.filterMap_cons]
                simp_all
      · have ih := decayGo_store zu zk rest tp tnf ne nne
        simp only [decayGo, decayEnt, hout, List.filterMap_cons]
        simp_all

theorem sumOutputNDNF_cons (n : HistEntry) (l : List HistEntry) :
    sumOutputNDNF (n :: l) =
      (if n.node_out ∧ ¬n.dummy ∧ n.filtered = noFlags then n.stat.period
       else 0) + sumOutputNDNF l := by
  simp [sumOutputNDNF]

theorem sumOutput_cons (n : HistEntry) (l : List HistEntry) :
    sumOutput (n :: l) =
      (if n.node_out then n.stat.period else 0) + sumOutput l := by
  simp [sumOutput]

theorem decayGo_tnf :
    ∀ (l : List HistEntry) (tp tnf ne nne K : Nat),
      (∀ e ∈ l, e.dummy = true → e.stat.period = 0) →
      tnf = sumOutputNDNF l + K →
      (decayGo false false l tp tnf ne nne).2.2.1 =
        sumOutputNDNF (decayGo false false l tp tnf ne nne).1 + K
  | [], tp, tnf, ne, nne, K, _, htnf => by
      simpa [decayGo, sumOutputNDNF] using htnf
  | n :: rest, tp, tnf, ne, nne, K, hdum, htnf => by
      have hdrest : ∀ e ∈ rest, e.dummy = true → e.stat.period = 0 :=
        fun e he => hdum e (by simp [he])
      rw [sumOutputNDNF_cons] at htnf
      by_cases hout : n.node_out
      · by_cases hzero : n.stat.period = 0
        · have hw : (if n.node_out ∧ ¬n.dummy ∧ n.filtered = noFlags
              then n.stat.period else 0) = 0 := by
            split <;> simp [hzero]
          rw [hw, zero_add] at htnf
          by_cases hused : n.used
          · have ih := decayGo_tnf rest tp tnf ne nne K hdrest htnf
            simp only [decayGo, hists__decay_entry, hout, hzero, hused]
            simp only [Bool.false_and, false_and, or_self, if_false,
              if_true, not_true, and_false]
            simp_all [sumOutputNDNF_cons, hzero]
          · have ih := decayGo_tnf rest tp tnf
              (ne - 1) (if n.filtered = noFlags then nne - 1 else nne) K
              hdrest htnf
            simp only [decayGo, hists__decay_entry, hout, hzero, hused]
            simp_all
        · have hdumn : ¬n.dummy := by
            intro hd
            exact hzero (hdum n (by simp) (by simpa using hd))
          by_cases hfil : n.filtered = noFlags
          · have hw : (if n.node_out ∧ ¬n.dummy ∧ n.filtered = noFlags
                then n.stat.period else 0) = n.stat.period := by
              simp [hout, hdumn, hfil]
            rw [hw] at htnf
            have h8 : n.stat.period * 7 / 8 * 8 ≤ n.stat.period * 7 :=
              Nat.div_mul_le_self _ 8
            have hle : n.stat.period * 7 / 8 ≤ n.stat.period := by omega
            have htnf' :
                tnf - (n.stat.period - n.stat.period * 7 / 8) =
                  sumOutputNDNF rest + (K + n.stat.period * 7 / 8) := by
              omega
            by_cases hdead : n.stat.period * 7 / 8 = 0
            · by_cases hused : n.used
              · have ih := decayGo_tnf rest
                  (tp - (n.stat.period - n.stat.period * 7 / 8))
                  (tnf - (n.stat.period - n.stat.period * 7 / 8))
                  ne nne (K + n.stat.period * 7 / 8) hdrest htnf'
                simp only [decayGo, hists__decay_entry, hout, hzero, hused,
                  hfil, he_stat__decay, hdead]
                simp_all [sumOutputNDNF_cons, hout, hdumn, hfil]
              · have ih := decayGo_tnf rest
                  (tp - (n.stat.period - n.stat.period * 7 / 8))
                  (tnf - (n.stat.period - n.stat.period * 7 / 8))
                  (ne - 1) (if n.filtered = noFlags then nne - 1 else nne)
                  (K + n.stat.period * 7 / 8) hdrest htnf'
                simp only [decayGo, hists__decay_entry, hout, hzero, hused,
                  hfil, he_stat__decay, hdead]
                simp_all
            · have ih := decayGo_tnf rest
                (tp - (n.stat.period - n.stat.period * 7 / 8))
                (tnf - (n.stat.period - n.stat.period * 7 / 8))
                ne nne (K + n.stat.period * 7 / 8) hdrest htnf'
              simp only [decayGo, hists__decay_entry, hout, hzero,
                hfil, he_stat__decay, hdead]
              simp_all [sumOutputNDNF_cons, hout, hdumn, hfil]
              omega
          · have hw : (if n.node_out ∧ ¬n.dummy ∧ n.filtered = noFlags
                then n.stat.period else 0) = 0 := by
              simp [hfil]
            rw [hw, zero_add] at htnf
            by_cases hdead : n.stat.period * 7 / 8 = 0
            · by_cases hused : n.used
              · have ih := decayGo_tnf rest
                  (tp - (n.stat.period - n.stat.period * 7 / 8)) tnf
                  ne nne K hdrest htnf
                simp only [decayGo, hists__decay_entry, hout, hzero, hused,
                  hfil, he_stat__decay, hdead]
                simp_all [sumOutputNDNF_cons, hfil]
              · have ih := decayGo_tnf rest
                  (tp - (n.stat.period - n.stat.period * 7 / 8)) tnf
                  (ne - 1) (if n.filtered = noFlags then nne - 1 else nne)
                  K hdrest htnf
                simp only [decayGo, hists__decay_entry, hout, hzero, hused,
                  hfil, he_stat__decay, hdead]
                simp_all
            · have ih := decayGo_tnf rest
                (tp - (n.stat.period - n.stat.period * 7 / 8)) tnf
                ne nne K hdrest htnf
              simp only [decayGo, hists__decay_entry, hout, hzero,
                hfil, he_stat__decay, hdead]
              simp_all [sumOutputNDNF_cons, hfil]
      · have hw : (if n.node_out ∧ ¬n.dummy ∧ n.filtered = noFlags
            then n.stat.period else 0) = 0 := by
          simp [hout]
        rw [hw, zero_add] at htnf
        have ih := decayGo_tnf rest tp tnf ne nne K hdrest htnf
        simp only [decayGo, hout]
        simp_all [sumOutputNDNF_cons, hout]


theorem hists__inc_stats_store (s : Hists) (h : HistEntry) :
    (hists__inc_stats s h).store = s.store := by
  unfold hists__inc_stats hists__inc_filter_stats
  split <;> rfl

theorem hists__inc_stats_cur (s : Hists) (h : HistEntry) :
    (hists__inc_stats s h).entries_in_cur = s.entries_in_cur := by
  unfold hists__inc_stats hists__inc_filter_stats
  split <;> rfl

theorem hists__inc_stats_tnf (s : Hists) (h : HistEntry) :
    (hists__inc_stats s h).total_non_filtered_period =
      (if h.filtered = noFlags then
        s.total_non_filtered_period + h.stat.period
       else s.total_non_filtered_period) := by
  unfold hists__inc_stats hists__inc_filter_stats
  split <;> simp_all

/-- The per-entry effect of one `hists__output_resort` loop iteration on
the entry itself: membership in the rebuilt output tree. -/
def resortEnt (root : InLoc) (n : HistEntry) : HistEntry :=
  if n.node_in = root then { n with node_out := true }
  else { n with node_out := false }

theorem resortGo_store (cfg : SymbolConf) (root : InLoc) :
    ∀ (l : List HistEntry) (s : Hists),
      (resortGo cfg root l s).store = l.map (resortEnt root) ++ s.store
  | [], s => by simp [resortGo]
  | n :: rest, s => by
      by_cases hr : n.node_in = root
      · simp only [resortGo, if_pos hr, List.map_cons, List.cons_append,
          resortEnt]
        rw [resortGo_store cfg root rest]
        by_cases hf : n.filtered = noFlags <;>
          simp [hf, hists__inc_stats_store, hr]
      · simp only [resortGo, if_neg hr, List.map_cons, List.cons_append,
          resortEnt]
        rw [resortGo_store cfg root rest]

theorem resortGo_tnf (cfg : SymbolConf) (root : InLoc) :
    ∀ (l : List HistEntry) (s : Hists),
      (resortGo cfg root l s).total_non_filtered_period =
        s.total_non_filtered_period +
          (l.map (fun n =>
            if n.node_in = root ∧ n.filtered = noFlags then n.stat.period
            else 0)).sum
  | [], s => by simp [resortGo]
  | n :: rest, s => by
      by_cases hr : n.node_in = root
      · by_cases hf : n.filtered = noFlags
        · simp only [resortGo, if_pos hr, List.map_cons, List.sum_cons,
            hr, hf, and_self, if_true, if_pos]
          rw [resortGo_tnf cfg root rest]
          simp [hists__inc_stats_tnf, hf]
          omega
        · simp only [resortGo, if_pos hr, List.map_cons, List.sum_cons,
            hf, and_false, if_false, if_neg hf]
          rw [resortGo_tnf cfg root rest]
          simp [hists__inc_stats_tnf, hf]
      · simp only [resortGo, if_neg hr, List.map_cons, List.sum_cons, hr,
          false_and, if_false]
        rw [resortGo_tnf cfg root rest]
        simp

/-- The weight an entry contributes to the insertion-buffer sum. -/
def wBuf (b : Bool) (e : HistEntry) : Nat :=
  if e.node_in = .buf b then e.stat.period else 0

theorem sumInsertionIndex_eq (s : Hists) :
    sumInsertionIndex s = (s.store.map (wBuf s.entries_in_cur)).sum := rfl

theorem addGo_some_sum (b : Bool) (smp : Sample) :
    ∀ (l l' : List HistEntry), addGo b smp l = some l' →
      (l'.map (wBuf b)).sum = (l.map (wBuf b)).sum + smp.period
  | [], l', h => by simp [addGo] at h
  | he :: rest, l', h => by
      by_cases hm : he.node_in = .buf b ∧ he.key = smp.key
      · simp only [addGo, hm, and_self, if_true, Option.some.injEq] at h
        subst h
        simp only [List.map_cons, List.sum_cons, wBuf, hm.1, if_true]
        simp [period_add_cpumode, period_add_period]
        omega
      · simp only [addGo, hm, if_false] at h
        cases hrec : addGo b smp rest with
        | none => simp [hrec] at h
        | some rest' =>
            rw [hrec] at h
            simp only [Option.map_some', Option.some.injEq] at h
            subst h
            have ih := addGo_some_sum b smp rest rest' hrec
            simp only [List.map_cons, List.sum_cons, ih]
            omega

theorem addGo_some_ndnf (b : Bool) (smp : Sample) :
    ∀ (l l' : List HistEntry),
      (∀ e ∈ l, e.node_in = .buf b → e.node_out = false) →
      addGo b smp l = some l' →
      sumOutputNDNF l' = sumOutputNDNF l
  | [], l', _, h => by simp [addGo] at h
  | he :: rest, l', hb, h => by
      by_cases hm : he.node_in = .buf b ∧ he.key = smp.key
      · simp only [addGo, hm, and_self, if_true, Option.some.injEq] at h
        subst h
        have hout : he.node_out = false := hb he (by simp) hm.1
        simp [sumOutputNDNF_cons, hout]
      · simp only [addGo, hm, if_false] at h
        cases hrec : addGo b smp rest with
        | none => simp [hrec] at h
        | some rest' =>
            rw [hrec] at h
            simp only [Option.map_some', Option.some.injEq] at h
            subst h
            have ih := addGo_some_ndnf b smp rest rest'
              (fun e he2 => hb e (by simp [he2])) hrec
            simp [sumOutputNDNF_cons, ih]

theorem addGo_some_bucket (b : Bool) (smp : Sample) :
    ∀ (l l' : List HistEntry),
      (∀ e ∈ l, bucketSum e.stat ≤ e.stat.period) →
      addGo b smp l = some l' →
      ∀ e ∈ l', bucketSum e.stat ≤ e.stat.period
  | [], l', _, h => by simp [addGo] at h
  | he :: rest, l', hb, h => by
      by_cases hm : he.node_in = .buf b ∧ he.key = smp.key
      · simp only [addGo, hm, and_self, if_true, Option.some.injEq] at h
        subst h
        intro e hmem
        rcases List.mem_cons.mp hmem with rfl | hmem
        · have h1 := bucketSum_add_cpumode
            (he_stat__add_period he.stat smp.period smp.weight)
            smp.cpumode smp.period
          have h2 : bucketSum (he_stat__add_period he.stat smp.period
              smp.weight) = bucketSum he.stat := bucketSum_add_period _ _ _
          have h3 := period_add_cpumode
            (he_stat__add_period he.stat smp.period smp.weight)
            smp.cpumode smp.period
          have h4 : (he_stat__add_period he.stat smp.period
              smp.weight).period = he.stat.period + smp.period :=
            period_add_period _ _ _
          have h5 := hb he (by simp)
          simp only []
          omega
        · exact hb e (by simp [hmem])
      · simp only [addGo, hm, if_false] at h
        cases hrec : addGo b smp rest with
        | none => simp [hrec] at h
        | some rest' =>
            rw [hrec] at h
            simp only [Option.map_some', Option.some.injEq] at h
            subst h
            intro e hmem
            rcases List.mem_cons.mp hmem with rfl | hmem
            · exact hb e (by simp)
            · exact addGo_some_bucket b smp rest rest'
                (fun x hx => hb x (by simp [hx])) hrec e hmem

theorem add_entry_cur (cfg : SymbolConf) (smp : Sample) (s : Hists) :
    (__hists__add_entry cfg smp s).entries_in_cur = s.entries_in_cur := by
  unfold __hists__add_entry
  cases addGo s.entries_in_cur smp s.store <;> rfl

theorem add_entry_tnf (cfg : SymbolConf) (smp : Sample) (s : Hists) :
    (__hists__add_entry cfg smp s).total_non_filtered_period =
      s.total_non_filtered_period := by
  unfold __hists__add_entry
  cases addGo s.entries_in_cur smp s.store <;> rfl

theorem sumInsertionIndex_add (cfg : SymbolConf) (smp : Sample)
    (s : Hists) :
    sumInsertionIndex (__hists__add_entry cfg smp s) =
      sumInsertionIndex s + smp.period := by
  rw [sumInsertionIndex_eq, sumInsertionIndex_eq, add_entry_cur]
  unfold __hists__add_entry
  cases h : addGo s.entries_in_cur smp s.store with
  | some store =>
      have := addGo_some_sum s.entries_in_cur smp s.store store h
      simpa using this
  | none =>
      simp only [List.map_append, List.sum_append, List.map_cons,
        List.map_nil, List.sum_cons, List.sum_nil]
      have : (wBuf s.entries_in_cur)
          { entryTemplate cfg smp with
            eid := s.next_eid
            stat := he_stat__add_cpumode_period (entryTemplate cfg smp).stat
              smp.cpumode smp.period
            node_in := .buf s.entries_in_cur
            node_out := false } = smp.period := by
        simp [wBuf, period_add_cpumode, entryTemplate]
      rw [this]
      omega

theorem add_entry_ndnf (cfg : SymbolConf) (smp : Sample) (s : Hists)
    (hb : ∀ e ∈ s.store, e.node_in = .buf s.entries_in_cur →
      e.node_out = false) :
    sumOutputNDNF (__hists__add_entry cfg smp s).store =
      sumOutputNDNF s.store := by
  unfold __hists__add_entry
  cases h : addGo s.entries_in_cur smp s.store with
  | some store =>
      simpa using addGo_some_ndnf s.entries_in_cur smp s.store store hb h
  | none =>
      simp [sumOutputNDNF, List.map_append]

theorem insertMany_sum (cfg : SymbolConf) :
    ∀ (smps : List Sample) (s : Hists),
      sumInsertionIndex (insertMany cfg smps s) =
        sumInsertionIndex s + (smps.map Sample.period).sum
  | [], s => by simp [insertMany]
  | smp :: rest, s => by
      have h1 : insertMany cfg (smp :: rest) s =
          insertMany cfg rest (__hists__add_entry cfg smp s) := rfl
      rw [h1, insertMany_sum cfg rest, sumInsertionIndex_add]
      simp only [List.map_cons, List.sum_cons]
      omega

theorem filter_dso_snd_stat (d : Option Nat) (he : HistEntry) :
    (hists__filter_entry_by_dso d he).2.stat = he.stat := by
  cases d with
  | none => rfl
  | some d =>
      simp only [hists__filter_entry_by_dso]
      split <;> rfl

theorem filter_thread_snd_stat (t : Option Nat) (he : HistEntry) :
    (hists__filter_entry_by_thread t he).2.stat = he.stat := by
  cases t with
  | none => rfl
  | some t =>
      simp only [hists__filter_entry_by_thread]
      split <;> rfl

theorem filter_symbol_snd_stat (f : Option (List Char)) (he : HistEntry) :
    (hists__filter_entry_by_symbol f he).2.stat = he.stat := by
  cases f with
  | none => rfl
  | some f =>
      simp only [hists__filter_entry_by_symbol]
      split <;> rfl

theorem filter_dso_snd_node_in (d : Option Nat) (he : HistEntry) :
    (hists__filter_entry_by_dso d he).2.node_in = he.node_in := by
  cases d with
  | none => rfl
  | some d =>
      simp only [hists__filter_entry_by_dso]
      split <;> rfl

theorem filter_thread_snd_node_in (t : Option Nat) (he : HistEntry) :
    (hists__filter_entry_by_thread t he).2.node_in = he.node_in := by
  cases t with
  | none => rfl
  | some t =>
      simp only [hists__filter_entry_by_thread]
      split <;> rfl

theorem filter_symbol_snd_node_in (f : Option (List Char))
    (he : HistEntry) :
    (hists__filter_entry_by_symbol f he).2.node_in = he.node_in := by
  cases f with
  | none => rfl
  | some f =>
      simp only [hists__filter_entry_by_symbol]
      split <;> rfl

theorem applyFilters_stat (s : Hists) (he : HistEntry) :
    (hists__apply_filters s he).stat = he.stat := by
  unfold hists__apply_filters
  rw [filter_symbol_snd_stat, filter_thread_snd_stat, filter_dso_snd_stat]

theorem applyFilters_node_in (s : Hists) (he : HistEntry) :
    (hists__apply_filters s he).node_in = he.node_in := by
  unfold hists__apply_filters
  rw [filter_symbol_snd_node_in, filter_thread_snd_node_in,
    filter_dso_snd_node_in]

theorem collapse_insert_prop (P : HistEntry → Prop)
    (hmerge : ∀ iter x, P iter → P x →
      P { iter with stat := he_stat__add_stat iter.stat x.stat }) :
    ∀ (he : HistEntry) (l l' : List HistEntry),
      hists__collapse_insert_entry he l = some l' →
      (∀ e ∈ l, P e) → P he → ∀ e ∈ l', P e
  | he, [], l', h => by simp [hists__collapse_insert_entry] at h
  | he, iter :: rest, l', h => by
      intro hl hhe
      by_cases hm : iter.node_in = .collapsed ∧ iter.ckey = he.ckey
      · rw [hists__collapse_insert_entry, if_pos hm] at h
        rw [Option.some.injEq] at h
        subst h
        intro e hmem
        rcases List.mem_cons.mp hmem with rfl | hmem
        · exact hmerge iter he (hl iter (by simp)) hhe
        · exact hl e (by simp [hmem])
      · simp only [hists__collapse_insert_entry, hm, if_false] at h
        cases hrec : hists__collapse_insert_entry he rest with
        | none => simp [hrec] at h
        | some rest' =>
            rw [hrec] at h
            simp only [Option.map_some', Option.some.injEq] at h
            subst h
            intro e hmem
            rcases List.mem_cons.mp hmem with rfl | hmem
            · exact hl e (by simp)
            · exact collapse_insert_prop P hmerge he rest rest' hrec
                (fun x hx => hl x (by simp [hx])) hhe e hmem

theorem collapseStep_prop (s : Hists) (P : HistEntry → Prop)
    (hmerge : ∀ iter x, P iter → P x →
      P { iter with stat := he_stat__add_stat iter.stat x.stat })
    (hcoll : ∀ x, P x → P { x with node_in := InLoc.collapsed })
    (hmove : ∀ x, P x → P (hists__apply_filters s x))
    (st : List HistEntry) (he : HistEntry)
    (hst : ∀ e ∈ st, P e) (hhe : P he) :
    ∀ e ∈ collapseStep s st he, P e := by
  intro e hmem
  have hred : collapseStep s st he =
      match hists__collapse_insert_entry
          { he with node_in := InLoc.collapsed } st with
      | some store => store
      | none =>
          st ++ [hists__apply_filters s
            { he with node_in := InLoc.collapsed }] := rfl
  rw [hred] at hmem
  cases hci : hists__collapse_insert_entry
      { he with node_in := InLoc.collapsed } st with
  | some st' =>
      rw [hci] at hmem
      dsimp only at hmem
      exact collapse_insert_prop P hmerge _ st st' hci hst (hcoll he hhe)
        e hmem
  | none =>
      rw [hci] at hmem
      dsimp only at hmem
      rcases List.mem_append.mp hmem with hmem2 | hmem2
      · exact hst e hmem2
      · rcases List.mem_singleton.mp hmem2 with rfl
        exact hmove _ (hcoll he hhe)

theorem foldl_collapseStep_prop (s : Hists) (P : HistEntry → Prop)
    (hmerge : ∀ iter x, P iter → P x →
      P { iter with stat := he_stat__add_stat iter.stat x.stat })
    (hcoll : ∀ x, P x → P { x with node_in := InLoc.collapsed })
    (hmove : ∀ x, P x → P (hists__apply_filters s x)) :
    ∀ (moved acc : List HistEntry),
      (∀ e ∈ acc, P e) → (∀ e ∈ moved, P e) →
      ∀ e ∈ List.foldl (collapseStep s) acc moved, P e
  | [], acc, hacc, _ => by simpa using hacc
  | he :: moved, acc, hacc, hmoved => by
      simp only [List.foldl_cons]
      exact foldl_collapseStep_prop s P hmerge hcoll hmove moved
        (collapseStep s acc he)
        (collapseStep_prop s P hmerge hcoll hmove acc he hacc
          (hmoved he (by simp)))
        (fun x hx => hmoved x (by simp [hx]))

theorem collapse_resort_prop (cfg : SymbolConf) (s : Hists)
    (P : HistEntry → Prop)
    (hmerge : ∀ iter x, P iter → P x →
      P { iter with stat := he_stat__add_stat iter.stat x.stat })
    (hcoll : ∀ x, P x → P { x with node_in := InLoc.collapsed })
    (hmove : ∀ x, P x → P (hists__apply_filters s x))
    (hstore : ∀ e ∈ s.store, P e) :
    ∀ e ∈ (hists__collapse_resort cfg s).store, P e := by
  unfold hists__collapse_resort
  by_cases hnc : cfg.needCollapse
  · simp only [hnc, not_true, if_false]
    exact foldl_collapseStep_prop s P hmerge hcoll hmove _ _
      (fun e he2 => hstore e (List.mem_of_mem_filter he2))
      (fun e he2 => hstore e (List.mem_of_mem_filter he2))
  · simp only [hnc, not_false_iff, if_true]
    exact hstore

theorem filter_eq_nil_of (p : HistEntry → Bool) :
    ∀ l : List HistEntry, (∀ e ∈ l, ¬p e = true) → l.filter p = []
  | [], _ => rfl
  | e :: l, h => by
      have he := h e (by simp)
      simp only [List.filter_cons]
      rw [if_neg he]
      exact filter_eq_nil_of p l (fun x hx => h x (by simp [hx]))

theorem filter_eq_self_of (p : HistEntry → Bool) :
    ∀ l : List HistEntry, (∀ e ∈ l, p e = true) → l.filter p = l
  | [], _ => rfl
  | e :: l, h => by
      have he := h e (by simp)
      simp only [List.filter_cons]
      rw [if_pos he]
      rw [filter_eq_self_of p l (fun x hx => h x (by simp [hx]))]

theorem collapse_resort_cur (cfg : SymbolConf) (s : Hists) :
    (hists__collapse_resort cfg s).entries_in_cur =
      if cfg.needCollapse then !s.entries_in_cur else s.entries_in_cur := by
  unfold hists__collapse_resort
  by_cases hnc : cfg.needCollapse <;> simp [hnc]

/-- The per-entry effect of one filter-pass iteration on the entry itself. -/
def filterEnt (skip : Bool) (pred : HistEntry → Bool × HistEntry)
    (k : FilterKind) (h : HistEntry) : HistEntry :=
  if ¬h.node_out then h
  else if skip ∧ h.parent = none then h
  else
    match pred h with
    | (true, h') => h'
    | (false, h') =>
        let h2 := { h' with filtered := clearFlag k h'.filtered }
        if h2.filtered ≠ noFlags then h2
        else { h2 with unfolded := false, row_offset := 0 }

/-- The period a filter-pass iteration adds to
`total_non_filtered_period` for one entry. -/
def filterContrib (skip : Bool) (pred : HistEntry → Bool × HistEntry)
    (k : FilterKind) (h : HistEntry) : Nat :=
  if h.node_out ∧ ¬(skip ∧ h.parent = none) ∧ (pred h).1 = false ∧
      clearFlag k (pred h).2.filtered = noFlags then
    h.stat.period
  else 0

/-- What the three `hists__filter_entry_by_*` predicates have in common:
they either leave the entry alone and report "kept", or set their own bit
and report "filtered out", and their decision ignores the bookkeeping
fields (`filtered`, `unfolded`, `row_offset`). -/
def predOk (pred : HistEntry → Bool × HistEntry) (k : FilterKind) : Prop :=
  (∀ h, pred h = (false, h) ∨
    pred h = (true, { h with filtered := setFlag k h.filtered })) ∧
  (∀ h f u r,
    (pred { h with filtered := f, unfolded := u, row_offset := r }).1 =
      (pred h).1)

theorem predOk_dso (d : Option Nat) :
    predOk (hists__filter_entry_by_dso d) .dso := by
  constructor
  · intro h
    cases d with
    | none => exact Or.inl rfl
    | some d =>
        simp only [hists__filter_entry_by_dso]
        cases hm : h.msMap with
        | none => right; simp
        | some m =>
            by_cases hc : m.dso = d
            · left; simp [hc]
            · right; simp [hc]
  · intro h f u r
    cases d with
    | none => rfl
    | some d =>
        simp only [hists__filter_entry_by_dso]
        cases hm : h.msMap with
        | none => simp
        | some m => by_cases hc : m.dso = d <;> simp [hc]

theorem predOk_thread (t : Option Nat) :
    predOk (hists__filter_entry_by_thread t) .thread := by
  constructor
  · intro h
    cases t with
    | none => exact Or.inl rfl
    | some t =>
        simp only [hists__filter_entry_by_thread]
        by_cases hc : h.thread = t
        · left; simp [hc]
        · right; simp [hc]
  · intro h f u r
    cases t with
    | none => rfl
    | some t =>
        simp only [hists__filter_entry_by_thread]
        by_cases hc : h.thread = t <;> simp [hc]

theorem predOk_symbol (f : Option (List Char)) :
    predOk (hists__filter_entry_by_symbol f) .symbol := by
  constructor
  · intro h
    cases f with
    | none => exact Or.inl rfl
    | some f =>
        simp only [hists__filter_entry_by_symbol]
        cases hm : h.msSym with
        | none => right; simp
        | some sym =>
            by_cases hc : strstrFound sym.name f
            · left; simp [hc]
            · right; simp [hc]
  · intro h f2 u r
    cases f with
    | none => rfl
    | some f =>
        simp only [hists__filter_entry_by_symbol]
        cases hm : h.msSym with
        | none => simp
        | some sym => by_cases hc : strstrFound sym.name f <;> simp [hc]

theorem remove_entry_snd (cfg : SymbolConf) (k : FilterKind) (acc : FAcc)
    (h' : HistEntry) :
    (hists__remove_entry_filter cfg k acc h').2 =
      (if clearFlag k h'.filtered ≠ noFlags then
        { h' with filtered := clearFlag k h'.filtered }
       else
        { h' with
          filtered := clearFlag k h'.filtered
          unfolded := false
          row_offset := 0 }) := by
  unfold hists__remove_entry_filter
  split_ifs <;> simp_all

theorem remove_entry_fst_tnf (cfg : SymbolConf) (k : FilterKind)
    (acc : FAcc) (h' : HistEntry) :
    (hists__remove_entry_filter cfg k acc h').1.tnf =
      (if clearFlag k h'.filtered = noFlags then acc.tnf + h'.stat.period
       else acc.tnf) := by
  unfold hists__remove_entry_filter
  split_ifs <;> simp_all


theorem filterEnt_skip (skip : Bool) (pred : HistEntry → Bool × HistEntry)
    (k : FilterKind) (h : HistEntry) (hout : h.node_out = true)
    (hskip : skip ∧ h.parent = none) :
    filterEnt skip pred k h = h := by
  unfold filterEnt
  rw [if_neg (by simp [hout]), if_pos hskip]

theorem filterEnt_noout (skip : Bool) (pred : HistEntry → Bool × HistEntry)
    (k : FilterKind) (h : HistEntry) (hout : ¬h.node_out = true) :
    filterEnt skip pred k h = h := by
  unfold filterEnt
  rw [if_pos (by simp [hout])]

theorem filterEnt_true (skip : Bool) (pred : HistEntry → Bool × HistEntry)
    (k : FilterKind) (h h' : HistEntry) (hout : h.node_out = true)
    (hskip : ¬(skip ∧ h.parent = none)) (hp : pred h = (true, h')) :
    filterEnt skip pred k h = h' := by
  unfold filterEnt
  rw [if_neg (by simp [hout]), if_neg hskip, hp]

theorem filterEnt_false (skip : Bool) (pred : HistEntry → Bool × HistEntry)
    (k : FilterKind) (h h' : HistEntry) (hout : h.node_out = true)
    (hskip : ¬(skip ∧ h.parent = none)) (hp : pred h = (false, h')) :
    filterEnt skip pred k h =
      (if clearFlag k h'.filtered ≠ noFlags then
        { h' with filtered := clearFlag k h'.filtered }
       else
        { h' with
          filtered := clearFlag k h'.filtered
          unfolded := false
          row_offset := 0 }) := by
  unfold filterEnt
  rw [if_neg (by simp [hout]), if_neg hskip, hp]


theorem filterGo_cons_noout (cfg : SymbolConf) (skip : Bool)
    (pred : HistEntry → Bool × HistEntry) (k : FilterKind)
    (h : HistEntry) (l : List HistEntry) (acc : FAcc)
    (hout : ¬h.node_out = true) :
    filterGo cfg skip pred k (h :: l) acc =
      (h :: (filterGo cfg skip pred k l acc).1,
       (filterGo cfg skip pred k l acc).2) := by
  simp only [filterGo]
  rw [if_pos (by simp [hout])]

theorem filterGo_cons_skip (cfg : SymbolConf) (skip : Bool)
    (pred : HistEntry → Bool × HistEntry) (k : FilterKind)
    (h : HistEntry) (l : List HistEntry) (acc : FAcc)
    (hout : h.node_out = true) (hskip : skip ∧ h.parent = none) :
    filterGo cfg skip pred k (h :: l) acc =
      (h :: (filterGo cfg skip pred k l acc).1,
       (filterGo cfg skip pred k l acc).2) := by
  simp only [filterGo]
  rw [if_neg (by simp [hout]), if_pos hskip]

theorem filterGo_cons_true (cfg : SymbolConf) (skip : Bool)
    (pred : HistEntry → Bool × HistEntry) (k : FilterKind)
    (h h' : HistEntry) (l : List HistEntry) (acc : FAcc)
    (hout : h.node_out = true) (hskip : ¬(skip ∧ h.parent = none))
    (hp : pred h = (true, h')) :
    filterGo cfg skip pred k (h :: l) acc =
      (h' :: (filterGo cfg skip pred k l acc).1,
       (filterGo cfg skip pred k l acc).2) := by
  simp only [filterGo]
  rw [if_neg (by simp [hout]), if_neg hskip, hp]

theorem filterGo_cons_false (cfg : SymbolConf) (skip : Bool)
    (pred : HistEntry → Bool × HistEntry) (k : FilterKind)
    (h h' : HistEntry) (l : List HistEntry) (acc : FAcc)
    (hout : h.node_out = true) (hskip : ¬(skip ∧ h.parent = none))
    (hp : pred h = (false, h')) :
    filterGo cfg skip pred k (h :: l) acc =
      ((hists__remove_entry_filter cfg k acc h').2 ::
        (filterGo cfg skip pred k l
          (hists__remove_entry_filter cfg k acc h').1).1,
       (filterGo cfg skip pred k l
         (hists__remove_entry_filter cfg k acc h').1).2) := by
  simp only [filterGo]
  rw [if_neg (by simp [hout]), if_neg hskip, hp]

theorem filterGo_fst (cfg : SymbolConf) (skip : Bool)
    (pred : HistEntry → Bool × HistEntry) (k : FilterKind) :
    ∀ (l : List HistEntry) (acc : FAcc),
      (filterGo cfg skip pred k l acc).1 =
        l.map (filterEnt skip pred k)
  | [], acc => by simp [filterGo]
  | h :: l, acc => by
      by_cases hout : h.node_out
      · by_cases hskip : skip ∧ h.parent = none
        · rw [filterGo_cons_skip cfg skip pred k h l acc hout hskip]
          simp only [List.map_cons]
          rw [filterGo_fst cfg skip pred k l acc,
            filterEnt_skip skip pred k h hout hskip]
        · rcases hp : pred h with ⟨b, h'⟩
          cases b
          · rw [filterGo_cons_false cfg skip pred k h h' l acc hout
              hskip hp]
            simp only [List.map_cons]
            rw [filterGo_fst cfg skip pred k l
              (hists__remove_entry_filter cfg k acc h').1]
            rw [remove_entry_snd,
              filterEnt_false skip pred k h h' hout hskip hp]
          · rw [filterGo_cons_true cfg skip pred k h h' l acc hout
              hskip hp]
            simp only [List.map_cons]
            rw [filterGo_fst cfg skip pred k l acc,
              filterEnt_true skip pred k h h' hout hskip hp]
      · rw [filterGo_cons_noout cfg skip pred k h l acc hout]
        simp only [List.map_cons]
        rw [filterGo_fst cfg skip pred k l acc,
          filterEnt_noout skip pred k h hout]

theorem filterGo_tnf (cfg : SymbolConf) (skip : Bool)
    (pred : HistEntry → Bool × HistEntry) (k : FilterKind)
    (hstat : ∀ h, (pred h).2.stat = h.stat) :
    ∀ (l : List HistEntry) (acc : FAcc),
      (filterGo cfg skip pred k l acc).2.tnf =
        acc.tnf + (l.map (filterContrib skip pred k)).sum
  | [], acc => by simp [filterGo]
  | h :: l, acc => by
      by_cases hout : h.node_out
      · by_cases hskip : skip ∧ h.parent = none
        · rw [filterGo_cons_skip cfg skip pred k h l acc hout hskip]
          simp only [List.map_cons, List.sum_cons]
          rw [filterGo_tnf cfg skip pred k hstat l acc]
          have hc : filterContrib skip pred k h = 0 := by
            simp [filterContrib, hskip]
          rw [hc]
          omega
        · rcases hp : pred h with ⟨b, h'⟩
          cases b
          · rw [filterGo_cons_false cfg skip pred k h h' l acc hout
              hskip hp]
            simp only [List.map_cons, List.sum_cons]
            rw [filterGo_tnf cfg skip pred k hstat l
              (hists__remove_entry_filter cfg k acc h').1]
            have hc : filterContrib skip pred k h =
                (if clearFlag k h'.filtered = noFlags then h.stat.period
                 else 0) := by
              simp [filterContrib, hout, hskip, hp]
            have hs : h'.stat = h.stat := by
              have h0 := hstat h
              rw [hp] at h0
              exact h0
            rw [remove_entry_fst_tnf, hc, hs]
            split_ifs <;> omega
          · rw [filterGo_cons_true cfg skip pred k h h' l acc hout
              hskip hp]
            simp only [List.map_cons, List.sum_cons]
            rw [filterGo_tnf cfg skip pred k hstat l acc]
            have hc : filterContrib skip pred k h = 0 := by
              simp [filterContrib, hp]
            rw [hc]
            omega
      · rw [filterGo_cons_noout cfg skip pred k h l acc hout]
        simp only [List.map_cons, List.sum_cons]
        rw [filterGo_tnf cfg skip pred k hstat l acc]
        have hc : filterContrib skip pred k h = 0 := by
          simp [filterContrib, hout]
        rw [hc]
        omega

theorem clearFlag_noFlags (k : FilterKind) : clearFlag k noFlags = noFlags := by
  cases k <;> rfl

theorem remove_entry_eq (cfg : SymbolConf) (k : FilterKind) (acc : FAcc)
    (h' : HistEntry) :
    hists__remove_entry_filter cfg k acc h' =
      (if clearFlag k h'.filtered = noFlags then
        (⟨acc.nfs + h'.stat.nr_events, acc.nne + 1,
          acc.tnf + h'.stat.period,
          hists__calc_col_len cfg acc.cols
            { h' with
              filtered := clearFlag k h'.filtered
              unfolded := false
              row_offset := 0 }⟩,
         { h' with
           filtered := clearFlag k h'.filtered
           unfolded := false
           row_offset := 0 })
       else
        (acc, { h' with filtered := clearFlag k h'.filtered })) := by
  unfold hists__remove_entry_filter
  by_cases hcf : clearFlag k h'.filtered = noFlags
  · rw [if_neg (by simpa using hcf), if_pos hcf]
  · rw [if_pos (by simpa using hcf), if_neg hcf]

theorem remove_snd_node_out (cfg : SymbolConf) (k : FilterKind) (acc : FAcc)
    (h' : HistEntry) :
    (hists__remove_entry_filter cfg k acc h').2.node_out = h'.node_out := by
  rw [remove_entry_eq]
  split_ifs <;> rfl

theorem remove_snd_parent (cfg : SymbolConf) (k : FilterKind) (acc : FAcc)
    (h' : HistEntry) :
    (hists__remove_entry_filter cfg k acc h').2.parent = h'.parent := by
  rw [remove_entry_eq]
  split_ifs <;> rfl

theorem remove_idem (cfg : SymbolConf) (k : FilterKind) (acc : FAcc)
    (h' : HistEntry) :
    hists__remove_entry_filter cfg k acc
        ((hists__remove_entry_filter cfg k acc h').2) =
      hists__remove_entry_filter cfg k acc h' := by
  rw [remove_entry_eq cfg k acc h']
  by_cases hcf : clearFlag k h'.filtered = noFlags
  · rw [if_pos hcf]
    dsimp only
    rw [remove_entry_eq]
    rw [if_pos (by dsimp only; rw [clearFlag_idem, hcf])]
    simp only [clearFlag_idem]
  · rw [if_neg hcf]
    dsimp only
    rw [remove_entry_eq]
    rw [if_neg (by dsimp only; rw [clearFlag_idem]; exact hcf)]
    simp only [clearFlag_idem]

theorem filterGo_idem (cfg : SymbolConf) (skip : Bool)
    (pred : HistEntry → Bool × HistEntry) (k : FilterKind)
    (hok1 : ∀ h, pred h = (false, h) ∨
      pred h = (true, { h with filtered := setFlag k h.filtered }))
    (hok2 : ∀ h f u r,
      (pred { h with filtered := f, unfolded := u, row_offset := r }).1 =
        (pred h).1) :
    ∀ (l : List HistEntry) (acc : FAcc),
      filterGo cfg skip pred k (filterGo cfg skip pred k l acc).1 acc =
        filterGo cfg skip pred k l acc
  | [], acc => by simp [filterGo]
  | h :: l, acc => by
      by_cases hout : h.node_out
      · by_cases hskip : skip ∧ h.parent = none
        · rw [filterGo_cons_skip cfg skip pred k h l acc hout hskip]
          rw [filterGo_cons_skip cfg skip pred k h
            (filterGo cfg skip pred k l acc).1 acc hout hskip]
          rw [filterGo_idem cfg skip pred k hok1 hok2 l acc]
        · rcases hp : pred h with ⟨b, h'⟩
          cases b
          · -- the predicate kept the entry: pred h = (false, h)
            have hh' : h' = h := by
              rcases hok1 h with h0 | h0
              · rw [hp] at h0
                simpa using h0
              · rw [hp] at h0
                simp at h0
            rw [filterGo_cons_false cfg skip pred k h h' l acc hout
              hskip hp]
            have hout2 : (hists__remove_entry_filter cfg k acc
                h').2.node_out = true := by
              rw [remove_snd_node_out, hh']; exact hout
            have hskip2 : ¬(skip ∧ (hists__remove_entry_filter cfg k acc
                h').2.parent = none) := by
              rw [remove_snd_parent, hh']; exact hskip
            have hfst2 : (pred (hists__remove_entry_filter cfg k acc
                h').2).1 = false := by
              rw [remove_entry_eq]
              split_ifs
              · dsimp only
                rw [hok2 h' (clearFlag k h'.filtered) false 0, hh', hp]
              · dsimp only
                rw [hok2 h' (clearFlag k h'.filtered) h'.unfolded
                  h'.row_offset, hh', hp]
            have hp2 : pred (hists__remove_entry_filter cfg k acc h').2 =
                (false, (hists__remove_entry_filter cfg k acc h').2) := by
              rcases hok1 (hists__remove_entry_filter cfg k acc h').2
                with h0 | h0
              · exact h0
              · rw [h0] at hfst2
                simp at hfst2
            rw [filterGo_cons_false cfg skip pred k
              (hists__remove_entry_filter cfg k acc h').2
              (hists__remove_entry_filter cfg k acc h').2
              (filterGo cfg skip pred k l
                (hists__remove_entry_filter cfg k acc h').1).1
              acc hout2 hskip2 hp2]
            rw [remove_idem]
            rw [filterGo_idem cfg skip pred k hok1 hok2 l
              (hists__remove_entry_filter cfg k acc h').1]
          · -- the predicate filtered the entry out
            have hh' : h' = { h with filtered := setFlag k h.filtered } := by
              rcases hok1 h with h0 | h0
              · rw [hp] at h0
                simp at h0
              · rw [hp] at h0
                simpa using h0
            rw [filterGo_cons_true cfg skip pred k h h' l acc hout
              hskip hp]
            have hout2 : h'.node_out = true := by rw [hh']; exact hout
            have hskip2 : ¬(skip ∧ h'.parent = none) := by
              rw [hh']; exact hskip
            have hfst2 : (pred h').1 = true := by
              rw [hh', hok2 h (setFlag k h.filtered) h.unfolded
                h.row_offset, hp]
            have hp2 : pred h' = (true, h') := by
              rcases hok1 h' with h0 | h0
              · rw [h0] at hfst2
                simp at hfst2
              · rw [h0]
                have hent : ({ h' with
                    filtered := setFlag k h'.filtered } : HistEntry) =
                    h' := by
                  rw [hh']
                  dsimp only
                  rw [setFlag_idem]
                rw [hent]
            rw [filterGo_cons_true cfg skip pred k h' h'
              (filterGo cfg skip pred k l acc).1 acc hout2 hskip2 hp2]
            rw [filterGo_idem cfg skip pred k hok1 hok2 l acc]
      · rw [filterGo_cons_noout cfg skip pred k h l acc hout]
        rw [filterGo_cons_noout cfg skip pred k h
          (filterGo cfg skip pred k l acc).1 acc hout]
        rw [filterGo_idem cfg skip pred k hok1 hok2 l acc]

theorem hists__filter_by_dso_store (cfg : SymbolConf) (d : Option Nat)
    (s : Hists) :
    (hists__filter_by_dso cfg d s).store =
      s.store.map (filterEnt cfg.exclude_other
        (hists__filter_entry_by_dso d) .dso) := by
  unfold hists__filter_by_dso hists__reset_filter_stats
  dsimp only
  rcases hfg : filterGo cfg cfg.exclude_other
      (hists__filter_entry_by_dso d) FilterKind.dso s.store
      ⟨0, 0, 0, hists__reset_col_len⟩ with ⟨st, a⟩
  have hfst := filterGo_fst cfg cfg.exclude_other
    (hists__filter_entry_by_dso d) FilterKind.dso s.store
    ⟨0, 0, 0, hists__reset_col_len⟩
  rw [hfg] at hfst
  exact hfst

theorem hists__filter_by_dso_tnf (cfg : SymbolConf) (d : Option Nat)
    (s : Hists) :
    (hists__filter_by_dso cfg d s).total_non_filtered_period =
      (s.store.map (filterContrib cfg.exclude_other
        (hists__filter_entry_by_dso d) .dso)).sum := by
  unfold hists__filter_by_dso hists__reset_filter_stats
  dsimp only
  rcases hfg : filterGo cfg cfg.exclude_other
      (hists__filter_entry_by_dso d) FilterKind.dso s.store
      ⟨0, 0, 0, hists__reset_col_len⟩ with ⟨st, a⟩
  have htnf := filterGo_tnf cfg cfg.exclude_other
    (hists__filter_entry_by_dso d) FilterKind.dso
    (filter_dso_snd_stat d) s.store ⟨0, 0, 0, hists__reset_col_len⟩
  rw [hfg] at htnf
  simpa using htnf

theorem hists__filter_by_dso_idem (cfg : SymbolConf) (d : Option Nat)
    (s : Hists) :
    hists__filter_by_dso cfg d (hists__filter_by_dso cfg d s) =
      hists__filter_by_dso cfg d s := by
  unfold hists__filter_by_dso hists__reset_filter_stats
  dsimp only
  rcases hfg : filterGo cfg cfg.exclude_other
      (hists__filter_entry_by_dso d) FilterKind.dso s.store
      ⟨0, 0, 0, hists__reset_col_len⟩ with ⟨st, a⟩
  have hidem := filterGo_idem cfg cfg.exclude_other
    (hists__filter_entry_by_dso d) FilterKind.dso (predOk_dso d).1
    (predOk_dso d).2 s.store ⟨0, 0, 0, hists__reset_col_len⟩
  rw [hfg] at hidem
  rw [hidem]

theorem hists__filter_by_thread_store (cfg : SymbolConf) (t : Option Nat)
    (s : Hists) :
    (hists__filter_by_thread cfg t s).store =
      s.store.map (filterEnt false
        (hists__filter_entry_by_thread t) .thread) := by
  unfold hists__filter_by_thread hists__reset_filter_stats
  dsimp only
  rcases hfg : filterGo cfg false
      (hists__filter_entry_by_thread t) FilterKind.thread s.store
      ⟨0, 0, 0, hists__reset_col_len⟩ with ⟨st, a⟩
  have hfst := filterGo_fst cfg false
    (hists__filter_entry_by_thread t) FilterKind.thread s.store
    ⟨0, 0, 0, hists__reset_col_len⟩
  rw [hfg] at hfst
  exact hfst

theorem hists__filter_by_thread_tnf (cfg : SymbolConf) (t : Option Nat)
    (s : Hists) :
    (hists__filter_by_thread cfg t s).total_non_filtered_period =
      (s.store.map (filterContrib false
        (hists__filter_entry_by_thread t) .thread)).sum := by
  unfold hists__filter_by_thread hists__reset_filter_stats
  dsimp only
  rcases hfg : filterGo cfg false
      (hists__filter_entry_by_thread t) FilterKind.thread s.store
      ⟨0, 0, 0, hists__reset_col_len⟩ with ⟨st, a⟩
  have htnf := filterGo_tnf cfg false
    (hists__filter_entry_by_thread t) FilterKind.thread
    (filter_thread_snd_stat t) s.store ⟨0, 0, 0, hists__reset_col_len⟩
  rw [hfg] at htnf
  simpa using htnf

theorem hists__filter_by_symbol_store (cfg : SymbolConf)
    (f : Option (List Char)) (s : Hists) :
    (hists__filter_by_symbol cfg f s).store =
      s.store.map (filterEnt false
        (hists__filter_entry_by_symbol f) .symbol) := by
  unfold hists__filter_by_symbol hists__reset_filter_stats
  dsimp only
  rcases hfg : filterGo cfg false
      (hists__filter_entry_by_symbol f) FilterKind.symbol s.store
      ⟨0, 0, 0, hists__reset_col_len⟩ with ⟨st, a⟩
  have hfst := filterGo_fst cfg false
    (hists__filter_entry_by_symbol f) FilterKind.symbol s.store
    ⟨0, 0, 0, hists__reset_col_len⟩
  rw [hfg] at hfst
  exact hfst

theorem hists__filter_by_symbol_tnf (cfg : SymbolConf)
    (f : Option (List Char)) (s : Hists) :
    (hists__filter_by_symbol cfg f s).total_non_filtered_period =
      (s.store.map (filterContrib false
        (hists__filter_entry_by_symbol f) .symbol)).sum := by
  unfold hists__filter_by_symbol hists__reset_filter_stats
  dsimp only
  rcases hfg : filterGo cfg false
      (hists__filter_entry_by_symbol f) FilterKind.symbol s.store
      ⟨0, 0, 0, hists__reset_col_len⟩ with ⟨st, a⟩
  have htnf := filterGo_tnf cfg false
    (hists__filter_entry_by_symbol f) FilterKind.symbol
    (filter_symbol_snd_stat f) s.store ⟨0, 0, 0, hists__reset_col_len⟩
  rw [hfg] at htnf
  simpa using htnf

/-- Sum of `Stat.period` over the non-filtered entries of a store that are
linked into the output tree (what `hists__inc_filter_stats` accumulates;
dummy entries are included, but they carry zero period in every state the
engine produces). -/
def sumOutputNF (l : List HistEntry) : Nat :=
  (l.map (fun e =>
    if e.node_out ∧ e.filtered = noFlags then e.stat.period else 0)).sum

theorem sumOutputNDNF_map (f : HistEntry → HistEntry) (l : List HistEntry) :
    sumOutputNDNF (l.map f) =
      (l.map (fun e =>
        if (f e).node_out ∧ ¬(f e).dummy ∧ (f e).filtered = noFlags then
          (f e).stat.period
        else 0)).sum := by
  unfold sumOutputNDNF
  rw [List.map_map]
  rfl

theorem filterEnt_false_nf (skip : Bool)
    (pred : HistEntry → Bool × HistEntry) (k : FilterKind)
    (h h' : HistEntry) (hout : h.node_out = true)
    (hskip : ¬(skip ∧ h.parent = none)) (hp : pred h = (false, h'))
    (hcf : clearFlag k h'.filtered = noFlags) :
    filterEnt skip pred k h =
      { h' with
        filtered := clearFlag k h'.filtered
        unfolded := false
        row_offset := 0 } := by
  rw [filterEnt_false skip pred k h h' hout hskip hp,
    if_neg (by simpa using hcf)]

theorem filterEnt_false_f (skip : Bool)
    (pred : HistEntry → Bool × HistEntry) (k : FilterKind)
    (h h' : HistEntry) (hout : h.node_out = true)
    (hskip : ¬(skip ∧ h.parent = none)) (hp : pred h = (false, h'))
    (hcf : ¬clearFlag k h'.filtered = noFlags) :
    filterEnt skip pred k h =
      { h' with filtered := clearFlag k h'.filtered } := by
  rw [filterEnt_false skip pred k h h' hout hskip hp,
    if_pos (by simpa using hcf)]

theorem filterEnt_pointwise (pred : HistEntry → Bool × HistEntry)
    (k : FilterKind)
    (hok1 : ∀ h, pred h = (false, h) ∨
      pred h = (true, { h with filtered := setFlag k h.filtered }))
    (h : HistEntry) (hdz : h.dummy = true → h.stat.period = 0) :
    (if (filterEnt false pred k h).node_out ∧
        ¬(filterEnt false pred k h).dummy ∧
        (filterEnt false pred k h).filtered = noFlags then
      (filterEnt false pred k h).stat.period
     else 0) = filterContrib false pred k h := by
  by_cases hout : h.node_out
  · rcases hok1 h with h0 | h0
    · by_cases hcf : clearFlag k h.filtered = noFlags
      · rw [filterEnt_false_nf false pred k h h hout (by simp) h0 hcf]
        simp only [filterContrib, h0]
        by_cases hdum : h.dummy
        · have hz := hdz hdum
          simp [hdum, hcf, hz, hout]
        · simp [hdum, hcf, hout]
      · rw [filterEnt_false_f false pred k h h hout (by simp) h0 hcf]
        simp only [filterContrib, h0]
        simp [hcf, hout]
    · rw [filterEnt_true false pred k h _ hout (by simp) h0]
      simp only [filterContrib, h0]
      simp [setFlag_ne_noFlags]
  · rw [filterEnt_noout false pred k h hout]
    simp [filterContrib, hout]

theorem filter_inv_sum (pred : HistEntry → Bool × HistEntry)
    (k : FilterKind)
    (hok1 : ∀ h, pred h = (false, h) ∨
      pred h = (true, { h with filtered := setFlag k h.filtered }))
    (l : List HistEntry)
    (hdz : ∀ e ∈ l, e.dummy = true → e.stat.period = 0) :
    sumOutputNDNF (l.map (filterEnt false pred k)) =
      (l.map (filterContrib false pred k)).sum := by
  rw [sumOutputNDNF_map]
  exact sum_map_congr _ _ l
    (fun e he => filterEnt_pointwise pred k hok1 e (hdz e he))

theorem dso_none_pred (he : HistEntry) :
    hists__filter_entry_by_dso none he = (false, he) := rfl

theorem roundtrip_pointwise (d : Option Nat) (e : HistEntry)
    (hdso : e.filtered.dso = false) :
    filterContrib false (hists__filter_entry_by_dso none) .dso
        (filterEnt false (hists__filter_entry_by_dso d) .dso e) =
      (if e.node_out ∧ e.filtered = noFlags then e.stat.period else 0) := by
  have hclr : clearFlag .dso e.filtered = e.filtered :=
    clearFlag_dso_of_false e.filtered hdso
  by_cases hout : e.node_out
  · rcases (predOk_dso d).1 e with h0 | h0
    · by_cases hcf : clearFlag .dso e.filtered = noFlags
      · rw [filterEnt_false_nf false _ .dso e e hout (by simp) h0 hcf]
        rw [hclr] at hcf
        simp only [filterContrib, dso_none_pred]
        simp [hout, clearFlag_idem, hclr, hcf, clearFlag_noFlags]
      · rw [filterEnt_false_f false _ .dso e e hout (by simp) h0 hcf]
        rw [hclr] at hcf
        simp only [filterContrib, dso_none_pred]
        simp [hout, clearFlag_idem, hclr, hcf]
    · rw [filterEnt_true false _ .dso e _ hout (by simp) h0]
      simp only [filterContrib, dso_none_pred]
      by_cases hnf : e.filtered = noFlags
      · simp [hout, clearFlag_setFlag, hclr, hnf, clearFlag_noFlags]
      · simp [hout, clearFlag_setFlag, hclr, hnf]
  · rw [filterEnt_noout false _ .dso e hout]
    simp [filterContrib, hout]

theorem decay_entries_store (zu zk : Bool) (s : Hists) :
    (hists__decay_entries zu zk s).store =
      s.store.filterMap (decayEnt zu zk) := by
  unfold hists__decay_entries
  rcases hdg : decayGo zu zk s.store s.total_period
      s.total_non_filtered_period s.nr_entries s.nr_non_filtered_entries
    with ⟨st, tp, tnf, ne, nne⟩
  have h0 := decayGo_store zu zk s.store s.total_period
    s.total_non_filtered_period s.nr_entries s.nr_non_filtered_entries
  rw [hdg] at h0
  exact h0

theorem decay_entries_tnf (zu zk : Bool) (s : Hists) :
    (hists__decay_entries zu zk s).total_non_filtered_period =
      (decayGo zu zk s.store s.total_period s.total_non_filtered_period
        s.nr_entries s.nr_non_filtered_entries).2.2.1 := by
  unfold hists__decay_entries
  rcases hdg : decayGo zu zk s.store s.total_period
      s.total_non_filtered_period s.nr_entries s.nr_non_filtered_entries
    with ⟨st, tp, tnf, ne, nne⟩
  rfl

theorem sevenEighths_le (n : Nat) : n * 7 / 8 ≤ n := by
  have h8 : n * 7 / 8 * 8 ≤ n * 7 := Nat.div_mul_le_self _ 8
  omega

theorem sevenEighths_lt (n : Nat) (h : 0 < n) : n * 7 / 8 < n := by
  have h8 : n * 7 / 8 * 8 ≤ n * 7 := Nat.div_mul_le_self _ 8
  omega

theorem decayEnt_noout (zu zk : Bool) (e : HistEntry)
    (hout : ¬e.node_out = true) : decayEnt zu zk e = some e := by
  unfold decayEnt
  rw [if_pos (by simpa using hout)]

theorem decayEnt_some_period (e e' : HistEntry)
    (h : decayEnt false false e = some e') (hout : e.node_out = true) :
    e'.stat.period = e.stat.period * 7 / 8 ∧ e'.node_out = true := by
  unfold decayEnt at h
  rw [if_neg (by simp [hout]), if_neg (by simp)] at h
  by_cases hz : e.stat.period = 0
  · rw [if_pos hz] at h
    by_cases hu : e.used
    · rw [if_neg (by simpa using hu)] at h
      rw [Option.some.injEq] at h
      subst h
      constructor
      · rw [hz]
      · exact hout
    · rw [if_pos (by simpa using hu)] at h
      cases h
  · rw [if_neg hz] at h
    dsimp only at h
    by_cases hc : e.stat.period * 7 / 8 = 0 ∧ ¬e.used = true
    · rw [if_pos (by simpa [he_stat__decay] using hc)] at h
      cases h
    · rw [if_neg (by simpa [he_stat__decay] using hc)] at h
      rw [Option.some.injEq] at h
      subst h
      exact ⟨rfl, hout⟩

theorem decayEnt_none (e : HistEntry)
    (h : decayEnt false false e = none) :
    e.node_out = true ∧ e.stat.period * 7 / 8 = 0 ∧ e.used = false := by
  by_cases hout : e.node_out
  · unfold decayEnt at h
    rw [if_neg (by simp [hout]), if_neg (by simp)] at h
    by_cases hz : e.stat.period = 0
    · rw [if_pos hz] at h
      by_cases hu : e.used
      · rw [if_neg (by simpa using hu)] at h
        cases h
      · refine ⟨hout, by rw [hz], by simpa using hu⟩
    · rw [if_neg hz] at h
      dsimp only at h
      by_cases hc : e.stat.period * 7 / 8 = 0 ∧ ¬e.used = true
      · exact ⟨hout, hc.1, by simpa using hc.2⟩
      · rw [if_neg (by simpa [he_stat__decay] using hc)] at h
        cases h
  · rw [decayEnt_noout false false e hout] at h
    cases h

theorem collapse_resort_self (cfg : SymbolConf) (s : Hists)
    (hnc : ¬cfg.needCollapse) : hists__collapse_resort cfg s = s := by
  unfold hists__collapse_resort
  rw [if_pos (by simpa using hnc)]

theorem collapse_resort_noop (cfg : SymbolConf) (s1 : Hists)
    (hempty : ∀ e ∈ s1.store, ¬e.node_in = .buf s1.entries_in_cur) :
    (hists__collapse_resort cfg s1).store = s1.store := by
  by_cases hnc : cfg.needCollapse
  · have hmoved : s1.store.filter
        (fun e => e.node_in = .buf s1.entries_in_cur) = [] :=
      filter_eq_nil_of _ _ (fun e he => by simpa using hempty e he)
    have hrest : s1.store.filter
        (fun e => ¬(e.node_in = .buf s1.entries_in_cur)) = s1.store :=
      filter_eq_self_of _ _ (fun e he => by simpa using hempty e he)
    unfold hists__collapse_resort
    rw [if_neg (by simpa using hnc)]
    dsimp only
    rw [hmoved, hrest, List.foldl_nil]
  · rw [collapse_resort_self cfg s1 hnc]

theorem dummy_find_none (cfg : SymbolConf) (s : Hists) (pair : HistEntry)
    (habs : ∀ e ∈ s.store, e.node_in = rootLoc cfg s →
      ¬e.ckey = pair.ckey) :
    s.store.find? (fun e =>
      e.node_in = rootLoc cfg s ∧ e.ckey = pair.ckey) = none := by
  rw [List.find?_eq_none]
  intro x hx
  simp only [decide_eq_true_eq, not_and]
  intro h1
  exact habs x hx h1

theorem add_dummy_entry_spec (cfg : SymbolConf) (s : Hists)
    (pair : HistEntry)
    (habs : ∀ e ∈ s.store, e.node_in = rootLoc cfg s →
      ¬e.ckey = pair.ckey) :
    (hists__add_dummy_entry cfg s pair).1.nr_entries = s.nr_entries + 1 ∧
    (hists__add_dummy_entry cfg s pair).1.total_period = s.total_period ∧
    (hists__add_dummy_entry cfg s pair).1.total_non_filtered_period =
      s.total_non_filtered_period ∧
    (hists__add_dummy_entry cfg s pair).2.stat = zeroStat ∧
    (hists__add_dummy_entry cfg s pair).2.dummy = true ∧
    (hists__add_dummy_entry cfg s pair).1.store =
      s.store ++ [(hists__add_dummy_entry cfg s pair).2] := by
  have hfind := dummy_find_none cfg s pair habs
  simp only [hists__add_dummy_entry, hfind]
  refine ⟨?_, ?_, ?_, by trivial, by trivial,
    by rw [hists__inc_stats_store]⟩
  · unfold hists__inc_stats hists__inc_filter_stats
    split <;> rfl
  · unfold hists__inc_stats hists__inc_filter_stats
    split <;> rfl
  · unfold hists__inc_stats hists__inc_filter_stats
    split <;> rfl

theorem output_resort_store (cfg : SymbolConf) (s : Hists) :
    (hists__output_resort cfg s).store =
      s.store.map (resortEnt (rootLoc cfg s)) := by
  unfold hists__output_resort
  dsimp only
  rw [resortGo_store]
  simp [hists__reset_stats, hists__reset_filter_stats]

theorem output_resort_tnf (cfg : SymbolConf) (s : Hists) :
    (hists__output_resort cfg s).total_non_filtered_period =
      (s.store.map (fun n =>
        if n.node_in = rootLoc cfg s ∧ n.filtered = noFlags then
          n.stat.period
        else 0)).sum := by
  unfold hists__output_resort
  dsimp only
  rw [resortGo_tnf]
  simp [hists__reset_stats, hists__reset_filter_stats]

theorem resort_pointwise (root : InLoc) (e : HistEntry)
    (hdz : e.dummy = true → e.stat.period = 0) :
    (if (resortEnt root e).node_out ∧ ¬(resortEnt root e).dummy ∧
        (resortEnt root e).filtered = noFlags then
      (resortEnt root e).stat.period
     else 0) =
      (if e.node_in = root ∧ e.filtered = noFlags then e.stat.period
       else 0) := by
  unfold resortEnt
  by_cases hr : e.node_in = root
  · rw [if_pos hr]
    by_cases hdum : e.dummy
    · have hz := hdz hdum
      by_cases hf : e.filtered = noFlags <;> simp [hdum, hf, hr, hz]
    · by_cases hf : e.filtered = noFlags <;> simp [hdum, hf, hr]
  · rw [if_neg hr]
    simp [hr]

theorem decay_entries_store_go (zu zk : Bool) (s : Hists) :
    (hists__decay_entries zu zk s).store =
      (decayGo zu zk s.store s.total_period s.total_non_filtered_period
        s.nr_entries s.nr_non_filtered_entries).1 := by
  unfold hists__decay_entries
  rcases hdg : decayGo zu zk s.store s.total_period
      s.total_non_filtered_period s.nr_entries s.nr_non_filtered_entries
    with ⟨st, tp, tnf, ne, nne⟩
  rfl

/-- C2: for every finite sequence of inserts into a fresh table, with no
collapse, decay or filter operation in between, the sum of
`Entry.stat.period` over the entries of the insertion index equals the
exact sum of the inserted samples' periods. -/
theorem claim_C2 (cfg : SymbolConf) (smps : List Sample) :
    sumInsertionIndex (insertMany cfg smps freshHists) =
      (smps.map Sample.period).sum := by
  rw [insertMany_sum cfg smps freshHists]
  simp [sumInsertionIndex, freshHists]

/-- C3: one decay pass with both zap flags false erases or ages each output
entry individually (`decayEnt`); every surviving output entry's period is
`floor(old * 7/8)`; the sum of periods over the output index strictly
decreases unless every output entry's period was already zero, in which
case it is unchanged. -/
theorem claim_C3 (s : Hists) :
    (hists__decay_entries false false s).store =
      s.store.filterMap (decayEnt false false) ∧
    (∀ e ∈ s.store, e.node_out = true → ∀ e',
      decayEnt false false e = some e' →
      e'.stat.period = e.stat.period * 7 / 8) ∧
    ((∃ e ∈ s.store, e.node_out = true ∧ e.stat.period ≠ 0) →
      sumOutput (hists__decay_entries false false s).store <
        sumOutput s.store) ∧
    ((∀ e ∈ s.store, e.node_out = true → e.stat.period = 0) →
      sumOutput (hists__decay_entries false false s).store =
        sumOutput s.store) := by
  have hle : ∀ a ∈ s.store,
      (decayEnt false false a).elim 0
        (fun e => if e.node_out then e.stat.period else 0) ≤
      (if a.node_out then a.stat.period else 0) := by
    intro a _
    cases hg : decayEnt false false a with
    | none => simp
    | some b =>
        by_cases hout : a.node_out
        · have hper := decayEnt_some_period a b hg (by simpa using hout)
          simp only [Option.elim]
          rw [if_pos (by simpa using hper.2), if_pos (by simpa using hout),
            hper.1]
          exact sevenEighths_le _
        · rw [decayEnt_noout false false a (by simpa using hout)] at hg
          rw [Option.some.injEq] at hg
          subst hg
          simp
  refine ⟨decay_entries_store false false s, ?_, ?_, ?_⟩
  · intro e _ hout e' h
    exact (decayEnt_some_period e e' h hout).1
  · intro hex
    rw [decay_entries_store]
    show ((s.store.filterMap (decayEnt false false)).map
      (fun e => if e.node_out then e.stat.period else 0)).sum <
      (s.store.map (fun e => if e.node_out then e.stat.period else 0)).sum
    rcases hex with ⟨w, hw, hwout, hwp⟩
    apply sum_filterMap_lt _ _ s.store hle
    refine ⟨w, hw, ?_⟩
    cases hg : decayEnt false false w with
    | none =>
        simp only [Option.elim]
        rw [if_pos (by simpa using hwout)]
        exact Nat.pos_of_ne_zero hwp
    | some b =>
        have hper := decayEnt_some_period w b hg hwout
        simp only [Option.elim]
        rw [if_pos (by simpa using hper.2), if_pos (by simpa using hwout),
          hper.1]
        exact sevenEighths_lt _ (Nat.pos_of_ne_zero hwp)
  · intro hall
    rw [decay_entries_store]
    have h1 : sumOutput s.store = 0 := by
      simp only [sumOutput]
      rw [sum_map_congr _ (fun _ => 0) s.store (fun e he => by
        by_cases hout : e.node_out
        · simp [hout, hall e he (by simpa using hout)]
        · simp [hout])]
      simp
    have h2 : sumOutput (s.store.filterMap (decayEnt false false)) = 0 := by
      simp only [sumOutput]
      rw [sum_map_congr _ (fun _ => 0) _ (fun e' he' => by
        rcases List.mem_filterMap.mp he' with ⟨a, ha, hg⟩
        by_cases haout : a.node_out
        · have hper := decayEnt_some_period a e' hg (by simpa using haout)
          have hz := hall a ha (by simpa using haout)
          simp [hper.1, hz]
        · rw [decayEnt_noout false false a (by simpa using haout)] at hg
          rw [Option.some.injEq] at hg
          subst hg
          simp [haout])]
      simp
    show sumOutput (s.store.filterMap (decayEnt false false)) =
      sumOutput s.store
    rw [h1, h2]

/-- C4 (amended): `he_stat__decay` multiplies period and nr_events by 7/8
and leaves the weight and the four per-cpu-mode buckets unchanged. -/
theorem claim_C4 (st : HeStat) :
    (he_stat__decay st).period = st.period * 7 / 8 ∧
    (he_stat__decay st).nr_events = st.nr_events * 7 / 8 ∧
    (he_stat__decay st).weight = st.weight ∧
    (he_stat__decay st).period_sys = st.period_sys ∧
    (he_stat__decay st).period_us = st.period_us ∧
    (he_stat__decay st).period_guest_sys = st.period_guest_sys ∧
    (he_stat__decay st).period_guest_us = st.period_guest_us :=
  ⟨rfl, rfl, rfl, rfl, rfl, rfl, rfl⟩

/-- C4 counterexample: the claim that decay multiplies the weight by 7/8
fails on a statistics record of weight 8 — the weight is left at 8, while
8 * 7/8 = 7. -/
theorem claim_C4_counterexample :
    (he_stat__decay statW).weight = 8 ∧ statW.weight * 7 / 8 = 7 ∧
    ¬(he_stat__decay statW).weight = statW.weight * 7 / 8 := by
  decide

/-- C5 (amended): a zap-free decay pass ages every output entry with
nonzero period regardless of whether it is pinned (`used`); pinning only
prevents the entry's eviction. -/
theorem claim_C5 (s : Hists) :
    (hists__decay_entries false false s).store =
      s.store.filterMap (decayEnt false false) ∧
    (∀ e ∈ s.store, e.node_out = true → e.stat.period ≠ 0 →
      ∀ e', decayEnt false false e = some e' →
        e'.stat = he_stat__decay e.stat) ∧
    (∀ e ∈ s.store, e.node_out = true → e.used = true →
      ∃ e', decayEnt false false e = some e') := by
  refine ⟨decay_entries_store false false s, ?_, ?_⟩
  · intro e _ hout hz e' h
    unfold decayEnt at h
    rw [if_neg (by simp [hout]), if_neg (by simp), if_neg hz] at h
    dsimp only at h
    by_cases hc : e.stat.period * 7 / 8 = 0 ∧ ¬e.used = true
    · rw [if_pos (by simpa [he_stat__decay] using hc)] at h
      cases h
    · rw [if_neg (by simpa [he_stat__decay] using hc)] at h
      rw [Option.some.injEq] at h
      subst h
      rfl
  · intro e _ hout hused
    unfold decayEnt
    rw [if_neg (by simp [hout]), if_neg (by simp)]
    by_cases hz : e.stat.period = 0
    · rw [if_pos hz, if_neg (by simp [hused])]
      exact ⟨e, rfl⟩
    · rw [if_neg hz]
      dsimp only
      rw [if_neg (by simp [he_stat__decay, hused])]
      exact ⟨_, rfl⟩

/-- C5 counterexample: the claim that a pinned ("used") entry's accumulated
statistics are left unchanged by decay fails on a table with a single
pinned output entry of period 8 — the pass decays it to 7. -/
theorem claim_C5_counterexample :
    (∀ e ∈ sPinned.store, e.used = true) ∧
    ((hists__decay_entries false false sPinned).store.map
      (fun e => e.stat.period)) = [7] ∧
    (sPinned.store.map (fun e => e.stat.period)) = [8] := by
  decide

/-- C6: running the collapse stage twice in a row with no inserts between
the runs (so the buffer the second run rotates in is empty, as it always is
single-threadedly right after a collapse) leaves the store — the set of
entries of the collapsed index together with all their accumulated
statistics — exactly as after the first run. -/
theorem claim_C6 (cfg : SymbolConf) (s : Hists)
    (hother : ∀ e ∈ s.store, ¬e.node_in = .buf (!s.entries_in_cur)) :
    (hists__collapse_resort cfg (hists__collapse_resort cfg s)).store =
      (hists__collapse_resort cfg s).store := by
  by_cases hnc : cfg.needCollapse
  · apply collapse_resort_noop
    intro e he
    rw [collapse_resort_cur, if_pos hnc]
    exact collapse_resort_prop cfg s
      (fun e => ¬e.node_in = .buf (!s.entries_in_cur))
      (fun iter x hi _ => hi)
      (fun x _ => by simp)
      (fun x hx => by
        show ¬(hists__apply_filters s x).node_in =
          InLoc.buf (!s.entries_in_cur)
        rw [applyFilters_node_in]
        exact hx)
      hother e he
  · simp only [collapse_resort_self cfg s hnc]

/-- C8: a dummy entry created for a collapse key absent from the leader's
tree has all statistics zeroed; linking it increments `nr_entries` by one
and adds zero to both `total_period` and `total_non_filtered_period`. -/
theorem claim_C8 (cfg : SymbolConf) (s : Hists) (pair : HistEntry)
    (habs : ∀ e ∈ s.store, e.node_in = rootLoc cfg s →
      ¬e.ckey = pair.ckey) :
    (hists__add_dummy_entry cfg s pair).1.nr_entries = s.nr_entries + 1 ∧
    (hists__add_dummy_entry cfg s pair).1.total_period = s.total_period ∧
    (hists__add_dummy_entry cfg s pair).1.total_non_filtered_period =
      s.total_non_filtered_period ∧
    (hists__add_dummy_entry cfg s pair).2.stat = zeroStat ∧
    (hists__add_dummy_entry cfg s pair).2.dummy = true ∧
    (hists__add_dummy_entry cfg s pair).1.store =
      s.store ++ [(hists__add_dummy_entry cfg s pair).2] :=
  add_dummy_entry_spec cfg s pair habs

/-- C9: in a table built solely by inserts and collapse-merges from a fresh
table, every entry's four per-cpu-mode period buckets sum to at most the
entry's total period. -/
theorem claim_C9 (cfg : SymbolConf) (s : Hists) (h : ReachableIC cfg s) :
    ∀ e ∈ s.store, bucketSum e.stat ≤ e.stat.period := by
  induction h with
  | init => intro e he; simp [freshHists] at he
  | @insert s smp hr ih =>
      intro e he
      revert he
      unfold __hists__add_entry
      cases hg : addGo s.entries_in_cur smp s.store with
      | some store =>
          intro he
          exact addGo_some_bucket s.entries_in_cur smp s.store store ih hg
            e he
      | none =>
          intro he
          rcases List.mem_append.mp he with h1 | h1
          · exact ih e h1
          · rcases List.mem_singleton.mp h1 with rfl
            have hb1 := bucketSum_add_cpumode (entryTemplate cfg smp).stat
              smp.cpumode smp.period
            have hb2 : bucketSum (entryTemplate cfg smp).stat = 0 := rfl
            have hb3 := period_add_cpumode (entryTemplate cfg smp).stat
              smp.cpumode smp.period
            have hb4 : (entryTemplate cfg smp).stat.period = smp.period :=
              rfl
            dsimp only
            omega
  | @collapse s hr ih =>
      exact collapse_resort_prop cfg s
        (fun e => bucketSum e.stat ≤ e.stat.period)
        (fun iter x hi hx => by
          show bucketSum (he_stat__add_stat iter.stat x.stat) ≤
            (he_stat__add_stat iter.stat x.stat).period
          rw [bucketSum_add_stat, period_add_stat]
          omega)
        (fun x hx => hx)
        (fun x hx => by
          show bucketSum (hists__apply_filters s x).stat ≤
            (hists__apply_filters s x).stat.period
          rw [applyFilters_stat]
          exact hx)
        ih

/-- C10: `hists__new_col_len` never shrinks a stored column width — the
stored width afterwards is the maximum of the previous width and the
supplied length, other columns are untouched, and the function returns
true exactly when the stored width strictly increased. -/
theorem claim_C10 (c : Cols) (col len : Nat) :
    (hists__new_col_len c col len).2 col = max (c col) len ∧
    (∀ c2, ¬c2 = col → (hists__new_col_len c col len).2 c2 = c c2) ∧
    ((hists__new_col_len c col len).1 = true ↔
      c col < (hists__new_col_len c col len).2 col) := by
  unfold hists__new_col_len hists__col_len hists__set_col_len
  by_cases hlt : len > c col
  · rw [if_pos hlt]
    refine ⟨?_, ?_, ?_⟩
    · show (if col = col then len else c col) = max (c col) len
      rw [if_pos rfl]
      exact (Nat.max_eq_right (Nat.le_of_lt hlt)).symm
    · intro c2 hne
      show (if c2 = col then len else c c2) = c c2
      rw [if_neg hne]
    · refine ⟨fun _ => ?_, fun _ => rfl⟩
      show c col < (if col = col then len else c col)
      rw [if_pos rfl]
      exact hlt
  · rw [if_neg hlt]
    refine ⟨?_, fun c2 _ => rfl, ?_⟩
    · show c col = max (c col) len
      exact (Nat.max_eq_left (Nat.le_of_not_lt hlt)).symm
    · constructor
      · intro h0; simp at h0
      · intro h0
        exact absurd (show c col < c col from h0) (Nat.lt_irrefl _)

/-- C1 (amended): the invariant "sum of `Stat.period` over the non-dummy,
non-filtered entries of the output index equals
`total_non_filtered_period`" is (re-)established by every output resort and
by every filter toggle (given that dummy entries carry zero period, and for
the dso toggle that `exclude_other` is off), is preserved by every decay
with both zap flags false, and is preserved by every insert whose insertion
buffer is disjoint from the output index (as it is whenever collapsing is
configured); a decay with a zap flag set breaks it (see the
counterexample), as can merges into entries shared with the output index,
until the next resort re-establishes it. -/
theorem claim_C1 :
    (∀ (cfg : SymbolConf) (s : Hists),
      (∀ e ∈ s.store, e.dummy = true → e.stat.period = 0) →
      histsInv (hists__output_resort cfg s)) ∧
    (∀ (cfg : SymbolConf) (d : Option Nat) (s : Hists),
      cfg.exclude_other = false →
      (∀ e ∈ s.store, e.dummy = true → e.stat.period = 0) →
      histsInv (hists__filter_by_dso cfg d s)) ∧
    (∀ (cfg : SymbolConf) (t : Option Nat) (s : Hists),
      (∀ e ∈ s.store, e.dummy = true → e.stat.period = 0) →
      histsInv (hists__filter_by_thread cfg t s)) ∧
    (∀ (cfg : SymbolConf) (f : Option (List Char)) (s : Hists),
      (∀ e ∈ s.store, e.dummy = true → e.stat.period = 0) →
      histsInv (hists__filter_by_symbol cfg f s)) ∧
    (∀ (s : Hists),
      (∀ e ∈ s.store, e.dummy = true → e.stat.period = 0) →
      histsInv s → histsInv (hists__decay_entries false false s)) ∧
    (∀ (cfg : SymbolConf) (smp : Sample) (s : Hists),
      (∀ e ∈ s.store, e.node_in = .buf s.entries_in_cur →
        e.node_out = false) →
      histsInv s → histsInv (__hists__add_entry cfg smp s)) := by
  refine ⟨?_, ?_, ?_, ?_, ?_, ?_⟩
  · intro cfg s hdz
    unfold histsInv
    rw [output_resort_store, output_resort_tnf, sumOutputNDNF_map]
    exact sum_map_congr _ _ s.store
      (fun e he => resort_pointwise (rootLoc cfg s) e (hdz e he))
  · intro cfg d s hexcl hdz
    unfold histsInv
    rw [hists__filter_by_dso_store, hists__filter_by_dso_tnf, hexcl]
    exact filter_inv_sum _ .dso (predOk_dso d).1 s.store hdz
  · intro cfg t s hdz
    unfold histsInv
    rw [hists__filter_by_thread_store, hists__filter_by_thread_tnf]
    exact filter_inv_sum _ .thread (predOk_thread t).1 s.store hdz
  · intro cfg f s hdz
    unfold histsInv
    rw [hists__filter_by_symbol_store, hists__filter_by_symbol_tnf]
    exact filter_inv_sum _ .symbol (predOk_symbol f).1 s.store hdz
  · intro s hdz hinv
    unfold histsInv
    rw [decay_entries_store_go, decay_entries_tnf]
    have h0 := decayGo_tnf s.store s.total_period
      s.total_non_filtered_period s.nr_entries s.nr_non_filtered_entries
      0 hdz (by rw [hinv]; omega)
    simpa using h0.symm
  · intro cfg smp s hb hinv
    unfold histsInv
    rw [add_entry_tnf, add_entry_ndnf cfg smp s hb]
    exact hinv

/-- C1 counterexample: the claim fails as stated — from a fresh table,
insert one unfiltered user-mode sample of period 8, resort the output tree
(the invariant now holds with both sides 8), then run one decay pass with
`zap_user = true`: the entry is erased from the output index but its period
is never subtracted, leaving the sum at 0 while
`total_non_filtered_period` stays 8, in a reachable state. -/
theorem claim_C1_counterexample :
    Reachable cfg0 (hists__decay_entries true false sResorted) ∧
    histsInv sResorted ∧
    sumOutputNDNF (hists__decay_entries true false sResorted).store = 0 ∧
    (hists__decay_entries true false
      sResorted).total_non_filtered_period = 8 ∧
    ¬histsInv (hists__decay_entries true false sResorted) := by
  refine ⟨?_, by unfold histsInv; decide, by decide, by decide,
    by unfold histsInv; decide⟩
  exact Reachable.decay true false
    (Reachable.resort (Reachable.insert sampleA Reachable.init))

/-- C7: toggling the DSO filter to some dso and back to none restores
`total_non_filtered_period` to its pre-filter value (for any state whose
total matches its output index, with no stale DSO bits and `exclude_other`
off), and re-applying the same filter state is idempotent: the second pass
reproduces the entire table state, so no entry's contribution is ever
double-counted. -/
theorem claim_C7 :
    (∀ (cfg : SymbolConf) (d : Option Nat) (s : Hists),
      cfg.exclude_other = false →
      (∀ e ∈ s.store, e.filtered.dso = false) →
      sumOutputNF s.store = s.total_non_filtered_period →
      (hists__filter_by_dso cfg none
        (hists__filter_by_dso cfg d s)).total_non_filtered_period =
        s.total_non_filtered_period) ∧
    (∀ (cfg : SymbolConf) (d : Option Nat) (s : Hists),
      hists__filter_by_dso cfg d (hists__filter_by_dso cfg d s) =
        hists__filter_by_dso cfg d s) := by
  constructor
  · intro cfg d s hexcl hdso hinv
    rw [hists__filter_by_dso_tnf, hists__filter_by_dso_store, hexcl,
      List.map_map]
    have hcong := sum_map_congr
      (filterContrib false (hists__filter_entry_by_dso none)
        FilterKind.dso ∘
       filterEnt false (hists__filter_entry_by_dso d) FilterKind.dso)
      (fun e => if e.node_out ∧ e.filtered = noFlags then e.stat.period
        else 0) s.store
      (fun e he => roundtrip_pointwise d e (hdso e he))
    rw [hcong]
    exact hinv
  · intro cfg d s
    exact hists__filter_by_dso_idem cfg d s

/-- Witness for C1: the amended invariant facts, instantiated at concrete
tables built from `sampleA`. -/
theorem claim_C1_witness :
    histsInv (hists__output_resort cfg0
      (__hists__add_entry cfg0 sampleA freshHists)) ∧
    histsInv (hists__filter_by_dso cfg0 (some 7) sResorted) ∧
    histsInv (hists__filter_by_thread cfg0 (some 5) sResorted) ∧
    histsInv (hists__filter_by_symbol cfg0 none sResorted) ∧
    histsInv (hists__decay_entries false false sResorted) ∧
    histsInv (__hists__add_entry cfg0 sampleA freshHists) :=
  ⟨claim_C1.1 cfg0 (__hists__add_entry cfg0 sampleA freshHists)
      (by decide),
   claim_C1.2.1 cfg0 (some 7) sResorted (by decide) (by decide),
   claim_C1.2.2.1 cfg0 (some 5) sResorted (by decide),
   claim_C1.2.2.2.1 cfg0 none sResorted (by decide),
   claim_C1.2.2.2.2.1 sResorted (by decide) (by unfold histsInv; decide),
   claim_C1.2.2.2.2.2 cfg0 sampleA freshHists (by decide)
     (by unfold histsInv; decide)⟩

/-- Witness for C3: the decayed table built from `sampleA` has a strictly
smaller output-index period sum. -/
theorem claim_C3_witness :
    (∃ e ∈ sResorted.store, e.node_out = true ∧ e.stat.period ≠ 0) ∧
    sumOutput (hists__decay_entries false false sResorted).store <
      sumOutput sResorted.store :=
  ⟨by decide, (claim_C3 sResorted).2.2.1 (by decide)⟩

/-- Witness for C5: the pinned entry survives the decay pass. -/
theorem claim_C5_witness :
    pinnedEntry ∈ sPinned.store ∧ pinnedEntry.node_out = true ∧
    pinnedEntry.used = true ∧
    (∃ e', decayEnt false false pinnedEntry = some e') :=
  ⟨by decide, by decide, by decide,
   (claim_C5 sPinned).2.2 pinnedEntry (by decide) (by decide) (by decide)⟩

/-- Witness for C6: collapsing twice after one insert, with collapsing
configured, reproduces the collapsed store. -/
theorem claim_C6_witness :
    (∀ e ∈ (__hists__add_entry cfgC sampleA freshHists).store,
      ¬e.node_in = .buf
        (!(__hists__add_entry cfgC sampleA freshHists).entries_in_cur)) ∧
    (hists__collapse_resort cfgC (hists__collapse_resort cfgC
      (__hists__add_entry cfgC sampleA freshHists))).store =
      (hists__collapse_resort cfgC
        (__hists__add_entry cfgC sampleA freshHists)).store :=
  ⟨by decide,
   claim_C6 cfgC (__hists__add_entry cfgC sampleA freshHists) (by decide)⟩

/-- Witness for C7: a concrete round trip through a dso filter that
excludes the single entry restores the total, and re-filtering is
idempotent. -/
theorem claim_C7_witness :
    (cfg0.exclude_other = false ∧
     (∀ e ∈ sResorted.store, e.filtered.dso = false) ∧
     sumOutputNF sResorted.store =
       sResorted.total_non_filtered_period ∧
     (hists__filter_by_dso cfg0 none
       (hists__filter_by_dso cfg0 (some 99)
         sResorted)).total_non_filtered_period =
       sResorted.total_non_filtered_period) ∧
    hists__filter_by_dso cfg0 (some 99)
        (hists__filter_by_dso cfg0 (some 99) sResorted) =
      hists__filter_by_dso cfg0 (some 99) sResorted :=
  ⟨⟨by decide, by decide, by decide,
    claim_C7.1 cfg0 (some 99) sResorted (by decide) (by decide)
      (by decide)⟩,
   claim_C7.2 cfg0 (some 99) sResorted⟩

/-- Witness for C8: adding a dummy for an absent key to a fresh leader. -/
theorem claim_C8_witness :
    (∀ e ∈ freshHists.store, e.node_in = rootLoc cfg0 freshHists →
      ¬e.ckey = pinnedEntry.ckey) ∧
    ((hists__add_dummy_entry cfg0 freshHists pinnedEntry).1.nr_entries =
      freshHists.nr_entries + 1 ∧
    (hists__add_dummy_entry cfg0 freshHists
      pinnedEntry).1.total_period = freshHists.total_period ∧
    (hists__add_dummy_entry cfg0 freshHists
      pinnedEntry).1.total_non_filtered_period =
      freshHists.total_non_filtered_period ∧
    (hists__add_dummy_entry cfg0 freshHists pinnedEntry).2.stat =
      zeroStat ∧
    (hists__add_dummy_entry cfg0 freshHists pinnedEntry).2.dummy = true ∧
    (hists__add_dummy_entry cfg0 freshHists pinnedEntry).1.store =
      freshHists.store ++
        [(hists__add_dummy_entry cfg0 freshHists pinnedEntry).2]) :=
  ⟨by decide, claim_C8 cfg0 freshHists pinnedEntry (by decide)⟩

/-- Witness for C9: the table after one insert is reachable and satisfies
the bucket inequality. -/
theorem claim_C9_witness :
    ReachableIC cfg0 (__hists__add_entry cfg0 sampleA freshHists) ∧
    ∀ e ∈ (__hists__add_entry cfg0 sampleA freshHists).store,
      bucketSum e.stat ≤ e.stat.period :=
  ⟨ReachableIC.insert sampleA ReachableIC.init,
   claim_C9 cfg0 (__hists__add_entry cfg0 sampleA freshHists)
     (ReachableIC.insert sampleA ReachableIC.init)⟩

/-- Witness for C10: widening column 3 of an all-zero width array to 5. -/
theorem claim_C10_witness :
    (hists__new_col_len hists__reset_col_len 3 5).2 3 =
      max (hists__reset_col_len 3) 5 ∧
    (¬(4 : Nat) = 3 ∧
      (hists__new_col_len hists__reset_col_len 3 5).2 4 =
        hists__reset_col_len 4) ∧
    ((hists__new_col_len hists__reset_col_len 3 5).1 = true ↔
      hists__reset_col_len 3 <
        (hists__new_col_len hists__reset_col_len 3 5).2 3) :=
  ⟨(claim_C10 hists__reset_col_len 3 5).1,
   ⟨by decide, (claim_C10 hists__reset_col_len 3 5).2.1 4 (by decide)⟩,
   (claim_C10 hists__reset_col_len 3 5).2.2⟩
